import Mathlib

/-!
Verification of the discoverx SQL-generation core (`discoverx/sql_builder.py`).

Strings are modelled as `List Char`; Python string methods used by the source
(`str.replace`, `re.findall` with the tag pattern, `str.join`, f-strings,
`str.lower`) are embedded as executable functions on `List Char`.

The collaborator modules `discoverx.config` (`TableInfo`), `discoverx.rules`
(`Rule`, `RuleTypes`) and `discoverx.common.helper` (`strip_margin`) are not
part of the verified sources; they are modelled from the specification where
noted.
-/

set_option maxRecDepth 100000

/-- Python strings are modelled as lists of characters. -/
abbrev Str : Type := List Char

/-- Shorthand turning a Lean string literal into the `List Char` model. -/
def str (s : String) : Str := s.data

/-- Characters matched by the character class `[\w_-]` of the tag pattern
`\[([\w_-]+)\]` in `compile_msql` (ASCII letters, digits, underscore, hyphen). -/
def isWordChar (c : Char) : Bool := c.isAlphanum || c = '_' || c = '-'

theorem dropWhile_len_le (p : α → Bool) : ∀ l : List α, (l.dropWhile p).length ≤ l.length := by
  intro l
  induction l with
  | nil => simp [List.dropWhile]
  | cons c rest ih =>
    by_cases h : p c
    · simp [List.dropWhile, h]
      omega
    · simp [List.dropWhile, h]

/-- Embedding of Python `re.findall(r"\[([\w_-]+)\]", s)`: scan left to right,
at each `[` take the maximal run of word characters; if the run is nonempty
and followed by `]` this is a match (the run is the captured tag); otherwise
the scan resumes at the next character.  The regex engine resumes a
successful match after the `]`; this scan resumes right after the `[`, which
yields the same matches because the consumed span `run ++ "]"` contains no
further `[` (see `findTags_skip_eq`). -/
def findTags (s : Str) : List Str :=
  match s with
  | [] => []
  | c :: rest =>
    if c = '[' then
      let run := rest.takeWhile isWordChar
      let rest' := rest.dropWhile isWordChar
      if run ≠ [] ∧ rest'.head? = some ']' then
        run :: findTags rest
      else
        findTags rest
    else
      findTags rest

/-- Worker for `replaceAll`: `skip` counts characters still covered by the
replacement just emitted (they are consumed without being copied, and the
scan never re-matches inside them, matching Python's non-rescanning
left-to-right `str.replace`). -/
def replaceAllGo (pat rep : Str) : Nat → Str → Str
  | _, [] => []
  | k + 1, _ :: rest => replaceAllGo pat rep k rest
  | 0, c :: rest =>
    if pat <+: (c :: rest) then
      rep ++ replaceAllGo pat rep (pat.length - 1) rest
    else
      c :: replaceAllGo pat rep 0 rest

/-- Embedding of Python `s.replace(pat, rep)`: replace all non-overlapping
occurrences of `pat` left to right, never rescanning replacement text.  The
(unused in this development) empty-pattern case keeps the string unchanged;
every call site passes a nonempty pattern. -/
def replaceAll (s pat rep : Str) : Str :=
  if pat = [] then s else replaceAllGo pat rep 0 s

/-- Embedding of `itertools.product(*x)` on a list of lists: all ways of
choosing one element from each list, leftmost index varying slowest; the empty
input yields the single empty choice. -/
def productList : List (List α) → List (List α)
  | [] => [[]]
  | l :: ls => l.flatMap (fun a => (productList ls).map (fun rest => a :: rest))

/-- Embedding of Python `sep.join(parts)`. -/
def joinWith (sep : Str) : List Str → Str
  | [] => []
  | [l] => l
  | l :: ls => l ++ sep ++ joinWith sep ls

/-- Whitespace characters considered by the margin normalization (space, tab). -/
def isWs (c : Char) : Bool := c = ' ' || c = '\t'

/-- Split a string at newline characters (the separators are consumed). -/
def splitNL (s : Str) : List Str :=
  match s with
  | [] => [[]]
  | c :: rest =>
    if c = '\n' then [] :: splitNL rest
    else
      match splitNL rest with
      | [] => [[c]]
      | l :: ls => (c :: l) :: ls

/-- Join lines with newline characters (inverse of `splitNL`). -/
def joinNL : List Str → Str
  | [] => []
  | [l] => l
  | l :: ls => l ++ '\n' :: joinNL ls

/-- Length of the leading whitespace of a line. -/
def leadingWs (l : Str) : Nat := (l.takeWhile isWs).length

/-- A line consisting only of whitespace. -/
def isBlankLine (l : Str) : Bool := l.all isWs

/-- Minimum of a list of naturals (0 for the empty list). -/
def minList : List Nat → Nat
  | [] => 0
  | m :: ms => ms.foldl Nat.min m

/-- The common margin of a list of lines: the minimum leading-whitespace
length over the lines that contain non-whitespace content (0 if none do). -/
def marginOf (lines : List Str) : Nat :=
  minList ((lines.filter (fun l => !(isBlankLine l))).map leadingWs)

/-- Modelled from the spec: `strip_margin` from `discoverx.common.helper`
(not among the verified sources).  Per the spec the output is the input with
the leading common whitespace stripped line-by-line, relative indentation
preserved; whitespace-only lines do not contribute to the common margin. -/
def strip_margin (s : Str) : Str :=
  let lines := splitNL s
  joinNL (lines.map (List.drop (marginOf lines)))

/-- Fuel-indexed worker for `natDigits`; `fuel = n + 1` always suffices since
the argument strictly decreases under division by 10. -/
def natDigitsAux : Nat → Nat → Str
  | 0, _ => []
  | fuel + 1, n =>
    if n < 10 then [Char.ofNat (48 + n)]
    else natDigitsAux fuel (n / 10) ++ [Char.ofNat (48 + n % 10)]

/-- Decimal representation of a natural number, as Python `str(n)` renders
the `len(...)` and `sample_size` values interpolated into the f-string. -/
def natDigits (n : Nat) : Str := natDigitsAux (n + 1) n

/-- Number of positions of `s` at which `pat` occurs (as a contiguous
substring); used to state "exactly one / exactly k occurrences" properties. -/
def countPos (pat : Str) (s : Str) : Nat :=
  match s with
  | [] => 0
  | _ :: rest => (if pat <+: s then 1 else 0) + countPos pat rest

/-- Modelled from the spec: a column descriptor from `discoverx.config`
(not among the verified sources): name, declared data type, and the set of
classification tags currently carried by the column. -/
structure ColumnInfo where
  name : Str
  data_type : Str
  tags : List Str
deriving DecidableEq, Repr

/-- Modelled from the spec: the table descriptor from `discoverx.config`
(not among the verified sources): optional catalog, database, table name and
the ordered column list. -/
structure TableInfo where
  catalog : Option Str
  database : Str
  table : Str
  columns : List ColumnInfo
deriving DecidableEq, Repr

/-- Modelled from the spec: the (column name, tag) pairs returned by
`TableInfo.get_columns_by_tag`, as consumed by `compile_msql` through the
`.name` and `.tag` fields. -/
structure TaggedColumn where
  name : Str
  tag : Str
deriving DecidableEq, Repr

/-- Modelled from the spec: `TableInfo.get_columns_by_tag` resolves a tag to
the columns of the table currently carrying that tag, in column order
(a stable, deterministic order per the spec). -/
def TableInfo.get_columns_by_tag (ti : TableInfo) (tag : Str) : List TaggedColumn :=
  (ti.columns.filter (fun c => c.tags.contains tag)).map (fun c => { name := c.name, tag := tag })

/-- Modelled from the spec: rule kinds from `discoverx.rules` (not among the
verified sources); only the REGEX kind participates in scan-query generation. -/
inductive RuleTypes where
  | REGEX
  | OTHER
deriving DecidableEq, Repr

/-- Modelled from the spec: a rule from `discoverx.rules` (not among the
verified sources); only the fields consumed by the SQL builder are modelled. -/
structure Rule where
  name : Str
  type : RuleTypes
  definition : Str
deriving DecidableEq, Repr

/-- Error kinds of the scan-query builder, per the spec's error taxonomy
(`NoScannableColumns`, `NoApplicableRules`); the Python source raises plain
`Exception`s with corresponding messages at the same two sites. -/
inductive ScanError where
  | NoScannableColumns
  | NoApplicableRules
deriving DecidableEq, Repr

/-- Python `str.lower`, restricted to the ASCII mapping used by the
`data_type.lower() == "string"` comparison. -/
def lowerStr (s : Str) : Str := s.map Char.toLower

namespace SqlBuilder

/-- `format_regex`: `expression.replace("\\", r"\\")`, i.e. replace every
single backslash with two backslashes. -/
def format_regex (expression : Str) : Str :=
  replaceAll expression (str "\\") (str "\\\\")

/-- The REGEX-kind rules kept by `rule_matching_sql`
(`[r for r in rules if r.type == RuleTypes.REGEX]`). -/
def expressionsOf (rules : List Rule) : List Rule :=
  rules.filter (fun r => match r.type with | .REGEX => true | .OTHER => false)

/-- The string-typed columns kept by `rule_matching_sql`
(`[c for c in table_info.columns if c.data_type.lower() == "string"]`). -/
def colsOf (ti : TableInfo) : List ColumnInfo :=
  ti.columns.filter (fun c => lowerStr c.data_type == str "string")

/-- The catalog literal interpolated by `f"'{table_info.catalog}'"`; Python
renders an absent catalog (`None`) as the marker text `None`. -/
def catalogLit (ti : TableInfo) : Str :=
  match ti.catalog with
  | some c => c
  | none => str "None"

/-- `catalog_str = f"{table_info.catalog}." if table_info.catalog else ""`;
both `None` and the empty string are falsy in Python. -/
def catalogStr (ti : TableInfo) : Str :=
  match ti.catalog with
  | some c => if c = [] then [] else c ++ str "."
  | none => []

/-- One element of the `matching_columns` list comprehension. -/
def matchingColumn (r : Rule) : Str :=
  str "INT(regexp_like(value, \x27" ++ format_regex r.definition ++ str "\x27)) AS " ++ r.name

/-- `matching_string = ",\n                    ".join(matching_columns)`. -/
def matchingString (exprs : List Rule) : Str :=
  joinWith (str ",\n                    ") (exprs.map matchingColumn)

/-- One element of the `unpivot_expressions` list comprehension. -/
def unpivotExpr (r : Rule) : Str :=
  str "\x27" ++ r.name ++ str "\x27, `" ++ r.name ++ str "`"

/-- One element of the `unpivot_columns` list comprehension. -/
def unpivotCol (c : ColumnInfo) : Str :=
  str "\x27" ++ c.name ++ str "\x27, `" ++ c.name ++ str "`"

/-- `unpivot_expressions = ", ".join(...)`. -/
def unpivotExpressions (exprs : List Rule) : Str :=
  joinWith (str ", ") (exprs.map unpivotExpr)

/-- `unpivot_columns = ", ".join(...)`. -/
def unpivotColumns (cols : List ColumnInfo) : Str :=
  joinWith (str ", ") (cols.map unpivotCol)

/-- The f-string body of `rule_matching_sql` before `strip_margin`, with the
source's exact literal text and interpolations. -/
def ruleMatchingBody (ti : TableInfo) (exprs : List Rule) (cols : List ColumnInfo)
    (sample_size : Nat) : Str :=
  str "\n            SELECT \n                \x27" ++ catalogLit ti ++
  str "\x27 as catalog,\n                \x27" ++ ti.database ++
  str "\x27 as database,\n                \x27" ++ ti.table ++
  str "\x27 as table, \n                column,\n                rule_name,\n                (sum(value) / count(value)) as frequency\n            FROM\n            (\n                SELECT column, stack(" ++
  natDigits exprs.length ++ str ", " ++ unpivotExpressions exprs ++
  str ") as (rule_name, value)\n                FROM \n                (\n                    SELECT\n                    column,\n                    " ++
  matchingString exprs ++
  str "\n                    FROM (\n                        SELECT\n                            stack(" ++
  natDigits cols.length ++ str ", " ++ unpivotColumns cols ++
  str ") AS (column, value)\n                        FROM " ++
  catalogStr ti ++ ti.database ++ str "." ++ ti.table ++
  str "\n                        TABLESAMPLE (" ++ natDigits sample_size ++
  str " ROWS)\n                    )\n                )\n            )\n            GROUP BY catalog, database, table, column, rule_name\n        "

/-- `rule_matching_sql`: filter REGEX rules and string columns, fail on an
empty column list, then on an empty rule list, else return the
margin-normalized scan statement. -/
def rule_matching_sql (ti : TableInfo) (rules : List Rule) (sample_size : Nat) :
    Except ScanError Str :=
  let expressions := expressionsOf rules
  let cols := colsOf ti
  if cols = [] then .error .NoScannableColumns
  else if expressions = [] then .error .NoApplicableRules
  else .ok (strip_margin (ruleMatchingBody ti expressions cols sample_size))

/-- The star-to-dot-star translation `filter.replace("*", ".*")`. -/
def starToDotStar (f : Str) : Str := replaceAll f (str "*") (str ".*")

/-- `catalog_sql`: the anchored-regex catalog predicate. -/
def catalogSqlPred (f : Str) : Str :=
  str "AND regexp_like(table_catalog, \"^" ++ starToDotStar f ++ str "$\")"

/-- `database_sql`: the anchored-regex database predicate. -/
def databaseSqlPred (f : Str) : Str :=
  str "AND regexp_like(table_schema, \"^" ++ starToDotStar f ++ str "$\")"

/-- `table_sql`: the anchored-regex table predicate. -/
def tableSqlPred (f : Str) : Str :=
  str "AND regexp_like(table_name, \"^" ++ starToDotStar f ++ str "$\")"

/-- The f-string body of `get_table_list_sql` before `strip_margin`, with the
source's exact literal text; a predicate slot is the empty string when the
corresponding filter is the literal `*`. -/
def tableListBody (catalog_filter database_filter table_filter : Str) : Str :=
  str "\n        SELECT \n            table_catalog, \n            table_schema, \n            table_name, \n            collect_list(struct(column_name, data_type, partition_index)) as table_columns\n        FROM system.information_schema.columns\n        WHERE \n            table_schema != \"information_schema\" \n            " ++
  (if catalog_filter = str "*" then [] else catalogSqlPred catalog_filter) ++
  str "\n            " ++
  (if database_filter = str "*" then [] else databaseSqlPred database_filter) ++
  str "\n            " ++
  (if table_filter = str "*" then [] else tableSqlPred table_filter) ++
  str "\n        GROUP BY table_catalog, table_schema, table_name\n        "

/-- `get_table_list_sql`: the margin-normalized metadata-listing statement. -/
def get_table_list_sql (catalog_filter database_filter table_filter : Str) : Str :=
  strip_margin (tableListBody catalog_filter database_filter table_filter)

/-- `_replace_tag`: `msql.replace(f"[{tag}]", col_name)`. -/
def replaceTag (msql tag col_name : Str) : Str :=
  replaceAll msql (str "[" ++ tag ++ str "]") col_name

/-- The list `sql_statements` of `compile_msql`: one statement per element of
the Cartesian product, obtained by sequentially substituting each chosen
column for its tag's placeholder.  `tagOrder` stands for
`list(set(re.findall(tag_regex, msql)))`: Python iterates a `set` of strings
in an order the language does not specify, so the order is an explicit
parameter constrained (where claims need it) to enumerate the distinct tags. -/
def compileStatements (msql : Str) (ti : TableInfo) (tagOrder : List Str) : List Str :=
  let x := tagOrder.map ti.get_columns_by_tag
  let combinations := productList x
  combinations.map (fun c => c.foldl (fun acc tc => replaceTag acc tc.tag tc.name) msql)

/-- `compile_msql`: join the statements with `UNION ALL` and normalize the
margin.  See `compileStatements` for the `tagOrder` parameter. -/
def compile_msql (msql : Str) (ti : TableInfo) (tagOrder : List Str) : Str :=
  strip_margin (joinWith (str "\nUNION ALL\n") (compileStatements msql ti tagOrder))

/-- `tagOrder` is a possible iteration order of `set(re.findall(...))`: an
enumeration, without repetition, of the distinct extracted tags. -/
def validOrder (msql : Str) (tagOrder : List Str) : Prop :=
  tagOrder.Perm (findTags msql).dedup

instance (msql : Str) (tagOrder : List Str) : Decidable (validOrder msql tagOrder) :=
  inferInstanceAs (Decidable (tagOrder.Perm (findTags msql).dedup))

end SqlBuilder

open SqlBuilder

/-! ### Basic facts about the string workers -/

theorem replaceAllGo_skip_eq (pat rep : Str) : ∀ (s : Str) (k : Nat),
    replaceAllGo pat rep k s = replaceAllGo pat rep 0 (s.drop k) := by
  intro s
  induction s with
  | nil => intro k; simp [replaceAllGo]
  | cons c rest ih =>
    intro k
    cases k with
    | zero => simp
    | succ k => simpa [replaceAllGo] using ih k

theorem replaceAll_nil (pat rep : Str) : replaceAll [] pat rep = [] := by
  by_cases h : pat = ([] : Str) <;> simp [replaceAll, replaceAllGo, h]

theorem replaceAll_cons_pos (pat rep : Str) (c : Char) (rest : Str)
    (hp : pat ≠ []) (hm : pat <+: (c :: rest)) :
    replaceAll (c :: rest) pat rep = rep ++ replaceAll ((c :: rest).drop pat.length) pat rep := by
  obtain ⟨m, hmlen⟩ : ∃ m, pat.length = m + 1 := by
    cases pat with
    | nil => exact absurd rfl hp
    | cons a l => exact ⟨l.length, rfl⟩
  simp only [replaceAll, if_neg hp, replaceAllGo, if_pos hm]
  rw [replaceAllGo_skip_eq, hmlen]
  simp

theorem replaceAll_cons_neg (pat rep : Str) (c : Char) (rest : Str)
    (hm : ¬ pat <+: (c :: rest)) :
    replaceAll (c :: rest) pat rep = c :: replaceAll rest pat rep := by
  have hp : pat ≠ [] := by
    intro h
    exact hm (h ▸ List.nil_prefix)
  simp [replaceAll, hp, replaceAllGo, hm]

/-- Replacement of a single-character pattern acts independently on every
character. -/
theorem replaceAll_single (a : Char) (rep : Str) : ∀ s : Str,
    replaceAll s [a] rep = s.flatMap (fun c => if c = a then rep else [c]) := by
  intro s
  induction s with
  | nil => rw [replaceAll_nil]; rfl
  | cons c rest ih =>
    by_cases hc : c = a
    · subst hc
      rw [replaceAll_cons_pos _ _ _ _ (by simp) ⟨rest, rfl⟩]
      simp [ih]
    · rw [replaceAll_cons_neg]
      · simp [ih, hc]
      · intro hpre
        obtain ⟨t, ht⟩ := hpre
        simp at ht
        exact hc ht.1.symm

theorem findTags_append_no_bracket (p : Str) (s : Str) (h : ∀ c ∈ p, c ≠ '[') :
    findTags (p ++ s) = findTags s := by
  induction p with
  | nil => simp
  | cons c p' ih =>
    have hc : c ≠ '[' := h c (by simp)
    simp only [List.cons_append, findTags, if_neg hc]
    exact ih (fun d hd => h d (by simp [hd]))

/-- The character-by-character scan of `findTags` agrees with the regex
engine's behaviour of resuming after the `]` of a successful match. -/
theorem findTags_skip_eq (rest : Str)
    (h : (rest.takeWhile isWordChar) ≠ [] ∧ (rest.dropWhile isWordChar).head? = some ']') :
    findTags ('[' :: rest) =
      rest.takeWhile isWordChar :: findTags (rest.dropWhile isWordChar).tail := by
  obtain ⟨tl, htl⟩ : ∃ tl, rest.dropWhile isWordChar = ']' :: tl := by
    cases hd : rest.dropWhile isWordChar with
    | nil => rw [hd] at h; simp at h
    | cons a l =>
      rw [hd] at h
      simp at h
      exact ⟨l, by rw [h.2]⟩
  have hsplit : rest = rest.takeWhile isWordChar ++ (']' :: tl) := by
    conv_lhs => rw [← List.takeWhile_append_dropWhile isWordChar rest]
    rw [htl]
  have hrun : ∀ c ∈ rest.takeWhile isWordChar, c ≠ '[' := by
    intro c hc
    have := List.mem_takeWhile_imp hc
    intro hb
    rw [hb] at this
    simp [isWordChar, Char.isAlphanum, Char.isAlpha, Char.isUpper, Char.isLower, Char.isDigit] at this
  simp only [findTags, if_pos rfl]
  rw [if_pos h]
  simp only [if_true]
  rw [htl]
  simp only [List.tail_cons]
  congr 1
  conv_lhs => rw [hsplit]
  rw [findTags_append_no_bracket _ _ hrun]
  simp only [findTags]
  rw [if_neg (by decide : ¬ (']' : Char) = '[')]

/-! ### The Cartesian product -/

theorem flatMap_cons_length (l : List α) (m : List (List α)) :
    (l.flatMap (fun a => m.map (fun r => a :: r))).length = l.length * m.length := by
  induction l with
  | nil => simp
  | cons a l ih => simp [ih, Nat.succ_mul, Nat.add_comm]

theorem productList_length : ∀ ls : List (List α),
    (productList ls).length = (ls.map List.length).prod := by
  intro ls
  induction ls with
  | nil => simp [productList]
  | cons l ls ih =>
    simp only [productList]
    rw [flatMap_cons_length, ih]
    simp

theorem compileStatements_length (msql : Str) (ti : TableInfo) (ord : List Str) :
    (compileStatements msql ti ord).length =
      (ord.map (fun t => (ti.get_columns_by_tag t).length)).prod := by
  simp only [compileStatements, List.length_map, productList_length, List.map_map]
  rfl

/-- With no extracted tags the product is the single empty combination and the
template is returned unchanged modulo margin normalization. -/
theorem compile_msql_no_tags (msql : Str) (ti : TableInfo) (ord : List Str)
    (h0 : findTags msql = []) (h : validOrder msql ord) :
    compile_msql msql ti ord = strip_margin msql := by
  have hord : ord = [] := by
    have h' := h
    rw [validOrder, h0] at h'
    simpa using List.perm_nil.mp h'
  subst hord
  simp [compile_msql, compileStatements, productList, joinWith]

/-! ### Claim theorems: C4, C1 -/

/-- C4: `rule_matching_sql` fails with the `NoScannableColumns` error whenever
the table has zero columns whose declared type is case-insensitively
`string`, regardless of the rule list (so this error takes precedence even
when the REGEX-filtered rule set is also empty), and fails with the
`NoApplicableRules` error whenever the table does have a string-typed column
but the REGEX-filtered rule set is empty; in both cases no SQL is returned. -/
theorem rule_matching_sql_error_cases (ti : TableInfo) (rules : List Rule) (n : Nat) :
    (colsOf ti = [] → rule_matching_sql ti rules n = .error .NoScannableColumns) ∧
    (colsOf ti ≠ [] → expressionsOf rules = [] →
      rule_matching_sql ti rules n = .error .NoApplicableRules) := by
  constructor
  · intro h
    simp [rule_matching_sql, h]
  · intro h1 h2
    simp [rule_matching_sql, h1, h2]

def wTableNoString : TableInfo :=
  { catalog := none, database := str "db", table := str "t1",
    columns := [{ name := str "n", data_type := str "int", tags := [] }] }

def wTableString : TableInfo :=
  { catalog := some (str "c"), database := str "db", table := str "t2",
    columns := [{ name := str "s", data_type := str "String", tags := [] }] }

def wRuleRegex : Rule :=
  { name := str "r1", type := .REGEX, definition := str "^x$" }

def wRuleOther : Rule :=
  { name := str "r2", type := .OTHER, definition := str "y" }

theorem rule_matching_sql_error_cases_witness :
    rule_matching_sql wTableNoString [wRuleRegex, wRuleOther] 1000 =
        .error .NoScannableColumns ∧
    rule_matching_sql wTableString [wRuleOther] 1000 = .error .NoApplicableRules :=
  ⟨(rule_matching_sql_error_cases wTableNoString [wRuleRegex, wRuleOther] 1000).1 (by decide),
   (rule_matching_sql_error_cases wTableString [wRuleOther] 1000).2 (by decide) (by decide)⟩

/-- C1: the number of statements produced by `compile_msql` is the product of
the per-tag matching-column counts over the distinct extracted tags; in
particular a tag with zero matching columns yields zero statements (and no
error), and with zero extracted tags the compile succeeds and returns exactly
the template, normalized, from the empty product's single combination. -/
theorem compile_msql_cartesian_count (msql : Str) (ti : TableInfo) (ord : List Str)
    (h : validOrder msql ord) :
    (compileStatements msql ti ord).length =
      ((findTags msql).dedup.map (fun t => (ti.get_columns_by_tag t).length)).prod ∧
    (∀ t ∈ ord, ti.get_columns_by_tag t = [] → compileStatements msql ti ord = []) ∧
    (findTags msql = [] → compile_msql msql ti ord = strip_margin msql) := by
  refine ⟨?_, ?_, fun h0 => compile_msql_no_tags msql ti ord h0 h⟩
  · rw [compileStatements_length]
    exact List.Perm.prod_eq (List.Perm.map _ h)
  · intro t ht hempty
    have hz : (0 : Nat) ∈ ord.map (fun t => (ti.get_columns_by_tag t).length) :=
      List.mem_map.mpr ⟨t, ht, by rw [hempty]; rfl⟩
    have hlen := compileStatements_length msql ti ord
    rw [List.prod_eq_zero hz] at hlen
    exact List.length_eq_zero.mp hlen

/-- A substring occurrence: `t` occurs contiguously inside `s`. -/
def containsSub (s t : Str) : Prop := ∃ p q, s = p ++ t ++ q

theorem containsSub_here (t q : Str) : containsSub (t ++ q) t :=
  ⟨[], q, by simp⟩

theorem containsSub_there (x : Str) {s t : Str} (h : containsSub s t) :
    containsSub (x ++ s) t := by
  obtain ⟨p, q, hpq⟩ := h
  exact ⟨x ++ p, q, by rw [hpq]; simp [List.append_assoc]⟩

theorem containsSub_trans {s m t : Str} (h1 : containsSub s m) (h2 : containsSub m t) :
    containsSub s t := by
  obtain ⟨p, q, hpq⟩ := h1
  obtain ⟨p2, q2, hpq2⟩ := h2
  exact ⟨p ++ p2, q2 ++ q, by rw [hpq, hpq2]; simp [List.append_assoc]⟩

theorem joinWith_mem_decomp (sep : Str) : ∀ (ls : List Str) (l : Str), l ∈ ls →
    containsSub (joinWith sep ls) l := by
  intro ls
  induction ls with
  | nil => intro l h; simp at h
  | cons x xs ih =>
    intro l h
    cases xs with
    | nil =>
      have hx : l = x := by simpa using h
      subst hx
      exact ⟨[], [], by simp [joinWith]⟩
    | cons y ys =>
      rcases List.mem_cons.mp h with h1 | h1
      · subst h1
        exact ⟨[], sep ++ joinWith sep (y :: ys), by simp [joinWith, List.append_assoc]⟩
      · obtain ⟨p, q, hpq⟩ := ih l h1
        exact ⟨x ++ sep ++ p, q, by simp [joinWith, hpq, List.append_assoc]⟩

def wTableTags : TableInfo :=
  { catalog := none, database := str "db", table := str "t3",
    columns := [
      { name := str "ip1", data_type := str "string", tags := [str "ip"] },
      { name := str "ip2", data_type := str "string", tags := [str "ip"] },
      { name := str "d1", data_type := str "string", tags := [str "dev"] },
      { name := str "z", data_type := str "string", tags := [str "zero"] }] }

theorem compile_msql_cartesian_count_witness :
    (compileStatements (str "SELECT [ip], [dev] FROM [ip]") wTableTags
        [str "ip", str "dev"]).length =
      ((findTags (str "SELECT [ip], [dev] FROM [ip]")).dedup.map
        (fun t => (wTableTags.get_columns_by_tag t).length)).prod ∧
    compileStatements (str "W [nope]") wTableTags [str "nope"] = [] ∧
    compile_msql (str "SELECT 1") wTableTags [] = strip_margin (str "SELECT 1") :=
  ⟨(compile_msql_cartesian_count _ wTableTags _ (by decide)).1,
   (compile_msql_cartesian_count _ wTableTags _ (by decide)).2.1 (str "nope")
      (by decide) (by decide),
   (compile_msql_cartesian_count _ wTableTags _ (by decide)).2.2 (by decide)⟩

/-! ### Claim theorems: C9, C3, C6 -/

theorem wordRun_bracket_split (rest : Str)
    (h : (rest.dropWhile isWordChar).head? = some ']') :
    ∃ tl, rest = rest.takeWhile isWordChar ++ ']' :: tl := by
  obtain ⟨tl, htl⟩ : ∃ tl, rest.dropWhile isWordChar = ']' :: tl := by
    cases hd : rest.dropWhile isWordChar with
    | nil => rw [hd] at h; simp at h
    | cons a l =>
      rw [hd] at h
      simp at h
      exact ⟨l, by rw [h]⟩
  refine ⟨tl, ?_⟩
  conv_lhs => rw [← List.takeWhile_append_dropWhile isWordChar rest]
  rw [htl]

theorem findTags_sound (msql : Str) :
    ∀ t ∈ findTags msql, t ≠ [] ∧ (∀ c ∈ t, isWordChar c = true) ∧
      ∃ pre post, msql = pre ++ (str "[" ++ t ++ str "]") ++ post := by
  induction msql with
  | nil => intro t ht; simp [findTags] at ht
  | cons c rest ih =>
    intro t ht
    by_cases hc : c = '['
    · subst hc
      by_cases hs : (rest.takeWhile isWordChar ≠ [] ∧
          (rest.dropWhile isWordChar).head? = some ']')
      · simp only [findTags, if_pos rfl] at ht
        rw [if_pos hs] at ht
        simp only [if_true] at ht
        rcases List.mem_cons.mp ht with h1 | h1
        · subst h1
          refine ⟨hs.1, fun d hd => List.mem_takeWhile_imp hd, ?_⟩
          obtain ⟨tl, htl⟩ := wordRun_bracket_split rest hs.2
          refine ⟨[], tl, ?_⟩
          conv_lhs => rw [htl]
          simp [str, List.append_assoc]
        · obtain ⟨h1a, h1b, pre, post, hd⟩ := ih t h1
          exact ⟨h1a, h1b, '[' :: pre, post, by rw [hd]; simp [List.append_assoc]⟩
      · simp only [findTags, if_pos rfl] at ht
        rw [if_neg hs] at ht
        obtain ⟨h1a, h1b, pre, post, hd⟩ := ih t ht
        exact ⟨h1a, h1b, '[' :: pre, post, by rw [hd]; simp [List.append_assoc]⟩
    · simp only [findTags, if_neg hc] at ht
      obtain ⟨h1a, h1b, pre, post, hd⟩ := ih t ht
      exact ⟨h1a, h1b, c :: pre, post, by rw [hd]; simp [List.append_assoc]⟩

/-- C9: a bracketed substring whose content is not a nonempty run of word
characters is never extracted as a tag: every extracted tag is a nonempty
run of word characters occurring bracketed in the template; consequently a
template whose `findTags` list is empty (in particular one containing only
malformed brackets) compiles to the template unchanged, modulo margin
normalization. -/
theorem findTags_wellformed_only (msql : Str) :
    (∀ t ∈ findTags msql, t ≠ [] ∧ (∀ c ∈ t, isWordChar c = true) ∧
      ∃ pre post, msql = pre ++ (str "[" ++ t ++ str "]") ++ post) ∧
    (findTags msql = [] → ∀ (ti : TableInfo) (ord : List Str), validOrder msql ord →
      compile_msql msql ti ord = strip_margin msql) :=
  ⟨findTags_sound msql, fun h0 ti ord h => compile_msql_no_tags msql ti ord h0 h⟩

theorem findTags_wellformed_only_witness :
    (str "q" ≠ [] ∧ (∀ c ∈ str "q", isWordChar c = true) ∧
      ∃ pre post, str "x [e f] [a.b] [] [q]" =
        pre ++ (str "[" ++ str "q" ++ str "]") ++ post) ∧
    compile_msql (str "SELECT [e f] [a.b] []") wTableTags [] =
      strip_margin (str "SELECT [e f] [a.b] []") :=
  ⟨(findTags_wellformed_only (str "x [e f] [a.b] [] [q]")).1 (str "q") (by decide),
   (findTags_wellformed_only (str "SELECT [e f] [a.b] []")).2 (by decide)
      wTableTags [] (by decide)⟩

def orderTable : TableInfo :=
  { catalog := none, database := str "d", table := str "t",
    columns := [
      { name := str "a1", data_type := str "string", tags := [str "a"] },
      { name := str "a2", data_type := str "string", tags := [str "a"] },
      { name := str "b1", data_type := str "string", tags := [str "b"] },
      { name := str "b2", data_type := str "string", tags := [str "b"] }] }

/-- C3: the byte-level output of `compile_msql` depends on the iteration
order of the `set` of extracted tags (which Python leaves unspecified for
`list(set(...))`): for the template `SELECT [a], [b] FROM t` and a table
where each tag matches two columns, the two permissible enumeration orders
of the distinct-tag set produce different output strings, so re-running with
identical inputs is not guaranteed byte-identical output. -/
theorem compile_msql_tag_order_dependent :
    validOrder (str "SELECT [a], [b] FROM t") [str "a", str "b"] ∧
    validOrder (str "SELECT [a], [b] FROM t") [str "b", str "a"] ∧
    compile_msql (str "SELECT [a], [b] FROM t") orderTable [str "a", str "b"] ≠
      compile_msql (str "SELECT [a], [b] FROM t") orderTable [str "b", str "a"] := by
  decide

/-- C6: the pattern embedded for each REGEX rule is the rule's definition
with every single backslash doubled and every other character unchanged
(backslash doubling is the only transformation `format_regex` performs), and
each such formatted pattern appears verbatim in the generated scan-statement
body. -/
theorem format_regex_only_backslash_doubling :
    (∀ s : Str, format_regex s =
      s.flatMap (fun c => if c = '\\' then ['\\', '\\'] else [c])) ∧
    (∀ (ti : TableInfo) (rules : List Rule) (n : Nat) (r : Rule),
      r ∈ expressionsOf rules →
      ∃ pre post, ruleMatchingBody ti (expressionsOf rules) (colsOf ti) n =
        pre ++ format_regex r.definition ++ post) := by
  constructor
  · intro s
    exact replaceAll_single '\\' (str "\\\\") s
  · intro ti rules n r hr
    have h1 : containsSub (ruleMatchingBody ti (expressionsOf rules) (colsOf ti) n)
        (matchingString (expressionsOf rules)) := by
      simp only [ruleMatchingBody, List.append_assoc]
      apply containsSub_there
      apply containsSub_there
      apply containsSub_there
      apply containsSub_there
      apply containsSub_there
      apply containsSub_there
      apply containsSub_there
      apply containsSub_there
      apply containsSub_there
      apply containsSub_there
      apply containsSub_there
      exact containsSub_here _ _
    have h2 : containsSub (matchingString (expressionsOf rules)) (matchingColumn r) :=
      joinWith_mem_decomp _ _ _ (List.mem_map_of_mem matchingColumn hr)
    have h3 : containsSub (matchingColumn r) (format_regex r.definition) := by
      simp only [matchingColumn, List.append_assoc]
      apply containsSub_there
      exact containsSub_here _ _
    exact containsSub_trans (containsSub_trans h1 h2) h3

theorem format_regex_only_backslash_doubling_witness :
    format_regex (str "^a\\d+\\\\z$") =
      (str "^a\\d+\\\\z$").flatMap (fun c => if c = '\\' then ['\\', '\\'] else [c]) ∧
    ∃ pre post, ruleMatchingBody wTableString (expressionsOf [wRuleRegex]) (colsOf wTableString) 9 =
      pre ++ format_regex wRuleRegex.definition ++ post :=
  ⟨(format_regex_only_backslash_doubling).1 (str "^a\\d+\\\\z$"),
   (format_regex_only_backslash_doubling).2 wTableString [wRuleRegex] 9 wRuleRegex (by decide)⟩

/-! ### Claim theorems: C10, C8 -/

/-- C10: every `*` occurrence in a filter string is replaced by `.*` (the
characterization of `starToDotStar`), so multiple wildcards are supported:
the filter `a*b*c` yields the anchored regex `^a.*b.*c$` inside the
corresponding generated predicate of `get_table_list_sql`'s statement body. -/
theorem star_replacement_multiple_wildcards :
    (∀ f : Str, starToDotStar f =
      f.flatMap (fun c => if c = '*' then str ".*" else [c])) ∧
    databaseSqlPred (str "a*b*c") =
      str "AND regexp_like(table_schema, \"^a.*b.*c$\")" ∧
    ∃ pre post, tableListBody (str "*") (str "a*b*c") (str "*") =
      pre ++ str "^a.*b.*c$" ++ post := by
  refine ⟨fun f => replaceAll_single '*' (str ".*") f, by decide,
    str "\n        SELECT \n            table_catalog, \n            table_schema, \n            table_name, \n            collect_list(struct(column_name, data_type, partition_index)) as table_columns\n        FROM system.information_schema.columns\n        WHERE \n            table_schema != \"information_schema\" \n            \n            AND regexp_like(table_schema, \"",
    str "\")\n            \n        GROUP BY table_catalog, table_schema, table_name\n        ",
    by decide⟩

theorem containsSub_head3 (a b c rest : Str) :
    containsSub (a ++ (b ++ (c ++ rest))) (a ++ b ++ c) :=
  ⟨[], rest, by simp [List.append_assoc]⟩

theorem containsSub_head5 (a b c d e rest : Str) :
    containsSub (a ++ (b ++ (c ++ (d ++ (e ++ rest))))) (a ++ (b ++ (c ++ (d ++ e)))) :=
  ⟨[], rest, by simp [List.append_assoc]⟩

/-- C8: the scan statement always carries the catalog as a quoted literal in
the outer SELECT list (an absent catalog is rendered as the marker `None`),
while the FROM clause reference is `database.table` exactly when the table
has no catalog (absent or empty) and `catalog.database.table` otherwise. -/
theorem rule_matching_sql_catalog_emission (ti : TableInfo) (rules : List Rule) (n : Nat)
    (hc : colsOf ti ≠ []) (hr : expressionsOf rules ≠ []) :
    (∃ s, rule_matching_sql ti rules n = .ok s) ∧
    containsSub (ruleMatchingBody ti (expressionsOf rules) (colsOf ti) n)
      (str "\x27" ++ catalogLit ti ++ str "\x27 as catalog") ∧
    containsSub (ruleMatchingBody ti (expressionsOf rules) (colsOf ti) n)
      (str "FROM " ++ catalogStr ti ++ ti.database ++ str "." ++ ti.table) ∧
    (catalogStr ti = [] ↔ ti.catalog = none ∨ ti.catalog = some []) ∧
    (ti.catalog = none → catalogLit ti = str "None") ∧
    (∀ c, ti.catalog = some c → c ≠ [] → catalogStr ti = c ++ str ".") := by
  refine ⟨?_, ?_, ?_, ?_, ?_, ?_⟩
  · simp only [rule_matching_sql, if_neg hc, if_neg hr]
    exact ⟨_, rfl⟩
  · simp only [ruleMatchingBody]
    rw [show str "\n            SELECT \n                \x27" =
        str "\n            SELECT \n                " ++ str "\x27" from by decide,
      show str "\x27 as catalog,\n                \x27" =
        str "\x27 as catalog" ++ str ",\n                \x27" from by decide]
    simp only [List.append_assoc]
    apply containsSub_there
    exact containsSub_head3 _ _ _ _
  · simp only [ruleMatchingBody]
    rw [show str ") AS (column, value)\n                        FROM " =
        str ") AS (column, value)\n                        " ++ str "FROM " from by decide]
    simp only [List.append_assoc]
    apply containsSub_there
    apply containsSub_there
    apply containsSub_there
    apply containsSub_there
    apply containsSub_there
    apply containsSub_there
    apply containsSub_there
    apply containsSub_there
    apply containsSub_there
    apply containsSub_there
    apply containsSub_there
    apply containsSub_there
    apply containsSub_there
    apply containsSub_there
    apply containsSub_there
    apply containsSub_there
    apply containsSub_there
    exact containsSub_head5 _ _ _ _ _ _
  · cases hcat : ti.catalog with
    | none => simp [catalogStr, hcat]
    | some c =>
      by_cases hce : c = []
      · subst hce; simp [catalogStr, hcat]
      · simp [catalogStr, hcat, hce]
  · intro h; simp [catalogLit, h]
  · intro c h hce; simp [catalogStr, h, hce]

theorem rule_matching_sql_catalog_emission_witness :
    (∃ s, rule_matching_sql wTableTags [wRuleRegex] 50 = .ok s) ∧
    containsSub (ruleMatchingBody wTableTags (expressionsOf [wRuleRegex]) (colsOf wTableTags) 50)
      (str "\x27" ++ catalogLit wTableTags ++ str "\x27 as catalog") ∧
    containsSub (ruleMatchingBody wTableTags (expressionsOf [wRuleRegex]) (colsOf wTableTags) 50)
      (str "FROM " ++ catalogStr wTableTags ++ wTableTags.database ++ str "." ++ wTableTags.table) ∧
    (catalogStr wTableTags = [] ↔ wTableTags.catalog = none ∨ wTableTags.catalog = some []) ∧
    (wTableTags.catalog = none → catalogLit wTableTags = str "None") ∧
    (∀ c, wTableTags.catalog = some c → c ≠ [] → catalogStr wTableTags = c ++ str ".") :=
  rule_matching_sql_catalog_emission wTableTags [wRuleRegex] 50 (by decide) (by decide)

/-! ### Occurrence counting -/

theorem prefix_of_append_of_le {p a b : Str} (h : p <+: a ++ b) (hl : p.length <= a.length) :
    p <+: a := by
  have hp : p = (a ++ b).take p.length := List.prefix_iff_eq_take.mp h
  have htake : (a ++ b).take p.length = a.take p.length := by
    rw [List.take_append_eq_append_take]
    have h0 : p.length - a.length = 0 := by omega
    rw [h0]
    simp
  rw [hp, htake]
  exact List.take_prefix _ _

theorem append_decomp_of_long {p a b : Str} (h : p <+: a ++ b) (hl : a.length < p.length) :
    a <+: p /\ p.drop a.length <+: b := by
  obtain ⟨t, ht⟩ := h
  have e1 : a.length - p.length = 0 := by omega
  constructor
  · have h1 : (p ++ t).take a.length = (a ++ b).take a.length := by rw [ht]
    rw [List.take_append_eq_append_take, List.take_append_eq_append_take, e1, Nat.sub_self] at h1
    simp [List.take_length] at h1
    have ha : a = p.take a.length := h1.symm
    rw [ha]
    exact List.take_prefix _ _
  · have h2 := congrArg (List.drop a.length) ht
    rw [List.drop_append_eq_append_drop, List.drop_append_eq_append_drop, e1, Nat.sub_self] at h2
    simp [List.drop_length] at h2
    exact ⟨t, h2⟩

theorem countPos_nil (pat : Str) : countPos pat [] = 0 := rfl

theorem countPos_cons (pat : Str) (c : Char) (rest : Str) :
    countPos pat (c :: rest) = (if pat <+: (c :: rest) then 1 else 0) + countPos pat rest := rfl

/-- Counting positions distributes over append when no occurrence spans the
boundary. -/
theorem countPos_append (pat : Str) : ∀ (x y : Str),
    (∀ k, 0 < k → k < pat.length → ¬ ((pat.take k) <:+ x ∧ (pat.drop k) <+: y)) →
    countPos pat (x ++ y) = countPos pat x + countPos pat y := by
  intro x
  induction x with
  | nil => intro y _; simp [countPos_nil]
  | cons c x' ih =>
    intro y hno
    have hno' : ∀ k, 0 < k → k < pat.length → ¬ ((pat.take k) <:+ x' ∧ (pat.drop k) <+: y) := by
      intro k hk1 hk2 hand
      obtain ⟨hs, hp⟩ := hand
      obtain ⟨w, hw⟩ := hs
      exact hno k hk1 hk2 ⟨⟨c :: w, by rw [← hw]; rfl⟩, hp⟩
    have e : (c :: x') ++ y = c :: (x' ++ y) := rfl
    rw [e, countPos_cons, countPos_cons, ih y hno', ← Nat.add_assoc]
    congr 1
    congr 1
    by_cases hpre : pat <+: (c :: x')
    · rw [if_pos hpre,
        if_pos (show pat <+: c :: (x' ++ y) from hpre.trans (List.prefix_append _ _))]
    · rw [if_neg hpre]
      by_cases hpre2 : pat <+: c :: (x' ++ y)
      · exfalso
        have hpre2' : pat <+: (c :: x') ++ y := hpre2
        by_cases hl : pat.length ≤ (c :: x').length
        · exact hpre (prefix_of_append_of_le hpre2' hl)
        · obtain ⟨h1, h2⟩ := append_decomp_of_long hpre2' (by omega)
          have htake : pat.take (c :: x').length = c :: x' :=
            (List.prefix_iff_eq_take.mp h1).symm
          refine hno (c :: x').length (by simp) (by omega) ⟨?_, h2⟩
          rw [htake]
      · rw [if_neg hpre2]

theorem countPos_eq_zero_of_char_notin {c0 : Char} {pat : Str} (hc : c0 ∈ pat) :
    ∀ s : Str, c0 ∉ s → countPos pat s = 0 := by
  intro s
  induction s with
  | nil => intro _; rfl
  | cons c rest ih =>
    intro hs
    rw [countPos_cons, ih (fun h => hs (by simp [h])), if_neg, Nat.add_zero]
    intro hpre
    exact hs (hpre.subset hc)

theorem head_eq_of_prefix {p s : Str} (h : p <+: s) (hp : p ≠ []) : s.head? = p.head? := by
  obtain ⟨t, ht⟩ := h
  cases p with
  | nil => exact absurd rfl hp
  | cons a l => rw [← ht]; rfl

theorem drop_ne_nil_of_lt {pat : Str} {k : Nat} (hk : k < pat.length) : pat.drop k ≠ [] := by
  intro hnil
  have := congrArg List.length hnil
  simp at this
  omega

theorem take_ne_nil_of_pos {pat : Str} {k : Nat} (hk0 : 0 < k) (hk : k < pat.length) :
    pat.take k ≠ [] := by
  intro hnil
  have h : min k pat.length = 0 := by rw [← List.length_take, hnil]; rfl
  rcases Nat.min_eq_zero_iff.mp h with h1 | h1 <;> omega

theorem head_mem_of_head_eq {s : Str} {c0 : Char} (h : s.head? = some c0) : c0 ∈ s := by
  cases s with
  | nil => simp at h
  | cons a l =>
    simp at h
    simp [h]

theorem joinWith_cons2 (sep x y : Str) (ys : List Str) :
    joinWith sep (x :: y :: ys) = x ++ sep ++ joinWith sep (y :: ys) := rfl

/-- Occurrence counting distributes over a `join` whose separator shares no
character with the pattern. -/
theorem countPos_joinWith (pat sep : Str) (hp : pat ≠ []) (hsepne : sep ≠ [])
    (hsep : ∀ c ∈ sep, c ∉ pat) :
    ∀ ls : List Str, countPos pat (joinWith sep ls) = (ls.map (countPos pat)).sum := by
  intro ls
  induction ls with
  | nil => simp [joinWith, countPos_nil]
  | cons x xs ih =>
    cases xs with
    | nil => simp [joinWith]
    | cons y ys =>
      have h1 : countPos pat (x ++ (sep ++ joinWith sep (y :: ys))) =
          countPos pat x + countPos pat (sep ++ joinWith sep (y :: ys)) := by
        apply countPos_append
        intro k hk1 hk2 hand
        have hd := drop_ne_nil_of_lt hk2
        have hh := head_eq_of_prefix hand.2 hd
        obtain ⟨c0, hc0⟩ : ∃ c0, (pat.drop k).head? = some c0 := by
          cases hchd : (pat.drop k) with
          | nil => exact absurd hchd hd
          | cons a l => exact ⟨a, rfl⟩
        have hc0pat : c0 ∈ pat := List.drop_subset _ _ (head_mem_of_head_eq hc0)
        have hsephead : (sep ++ joinWith sep (y :: ys)).head? = sep.head? := by
          cases sep with
          | nil => exact absurd rfl hsepne
          | cons a l => rfl
        rw [hsephead, hc0] at hh
        exact hsep c0 (head_mem_of_head_eq hh) hc0pat
      have h2 : countPos pat (sep ++ joinWith sep (y :: ys)) =
          countPos pat sep + countPos pat (joinWith sep (y :: ys)) := by
        apply countPos_append
        intro k hk1 hk2 hand
        obtain ⟨c0, hc0⟩ := List.exists_mem_of_ne_nil _ (take_ne_nil_of_pos hk1 hk2)
        exact hsep c0 (hand.1.subset hc0) (List.take_subset _ _ hc0)
      have h3 : countPos pat sep = 0 := by
        obtain ⟨c0, hc0⟩ := List.exists_mem_of_ne_nil _ hp
        exact countPos_eq_zero_of_char_notin hc0 sep (fun hmem => hsep c0 hmem hc0)
      rw [joinWith_cons2, List.append_assoc, h1, h2, h3, ih]
      simp

/-! ### Margin normalization preserves occurrence counts -/

theorem splitNL_ne_nil (s : Str) : splitNL s ≠ [] := by
  cases s with
  | nil => simp [splitNL]
  | cons c rest =>
    simp only [splitNL]
    by_cases h : c = '\n'
    · simp [h]
    · rw [if_neg h]
      cases hs : splitNL rest <;> simp

theorem joinNL_splitNL (s : Str) : joinNL (splitNL s) = s := by
  induction s with
  | nil => rfl
  | cons c rest ih =>
    simp only [splitNL]
    by_cases h : c = '\n'
    · rw [if_pos h]
      cases hs : splitNL rest with
      | nil => exact absurd hs (splitNL_ne_nil rest)
      | cons l ls =>
        have hjoin : joinNL (l :: ls) = rest := by rw [← hs]; exact ih
        show joinNL ([] :: l :: ls) = c :: rest
        rw [show joinNL ([] :: l :: ls) = [] ++ '\n' :: joinNL (l :: ls) from rfl, hjoin, h]
        rfl
    · rw [if_neg h]
      cases hs : splitNL rest with
      | nil => exact absurd hs (splitNL_ne_nil rest)
      | cons l ls =>
        have hjoin : joinNL (l :: ls) = rest := by rw [← hs]; exact ih
        cases ls with
        | nil =>
          show c :: l = c :: rest
          rw [show l = joinNL [l] from rfl, hjoin]
        | cons l2 ls2 =>
          show (c :: l) ++ '\n' :: joinNL (l2 :: ls2) = c :: rest
          rw [show (c :: l) ++ '\n' :: joinNL (l2 :: ls2) =
            c :: (l ++ '\n' :: joinNL (l2 :: ls2)) from rfl]
          rw [show l ++ '\n' :: joinNL (l2 :: ls2) = joinNL (l :: l2 :: ls2) from rfl, hjoin]

theorem splitNL_no_newline (s : Str) : ∀ l ∈ splitNL s, '\n' ∉ l := by
  induction s with
  | nil => intro l hl; simp [splitNL] at hl; simp [hl]
  | cons c rest ih =>
    intro l hl
    simp only [splitNL] at hl
    by_cases h : c = '\n'
    · rw [if_pos h] at hl
      rcases List.mem_cons.mp hl with h1 | h1
      · simp [h1]
      · exact ih l h1
    · rw [if_neg h] at hl
      cases hs : splitNL rest with
      | nil => exact absurd hs (splitNL_ne_nil rest)
      | cons l0 ls =>
        rw [hs] at hl
        rcases List.mem_cons.mp hl with h1 | h1
        · subst h1
          intro hmem
          rcases List.mem_cons.mp hmem with h2 | h2
          · exact h h2.symm
          · exact ih l0 (by rw [hs]; simp) h2
        · exact ih l (by rw [hs]; simp [h1])

theorem countPos_joinNL (pat : Str) (hp : pat ≠ []) (hnl : '\n' ∉ pat) :
    ∀ ls : List Str, countPos pat (joinNL ls) = (ls.map (countPos pat)).sum := by
  intro ls
  induction ls with
  | nil => simp [joinNL, countPos_nil]
  | cons x xs ih =>
    cases xs with
    | nil => simp [joinNL]
    | cons y ys =>
      show countPos pat (x ++ '\n' :: joinNL (y :: ys)) = _
      have h1 : countPos pat (x ++ '\n' :: joinNL (y :: ys)) =
          countPos pat x + countPos pat ('\n' :: joinNL (y :: ys)) := by
        apply countPos_append
        intro k hk1 hk2 hand
        have hd := drop_ne_nil_of_lt hk2
        have hh := head_eq_of_prefix hand.2 hd
        have h'' : (pat.drop k).head? = some '\n' := by rw [← hh]; rfl
        exact hnl (List.drop_subset _ _ (head_mem_of_head_eq h''))
      have h2 : countPos pat ('\n' :: joinNL (y :: ys)) =
          countPos pat (joinNL (y :: ys)) := by
        rw [countPos_cons, if_neg, Nat.zero_add]
        intro hpre
        have hh := head_eq_of_prefix hpre hp
        exact hnl (head_mem_of_head_eq (show pat.head? = some '\n' by rw [← hh]; rfl))
      rw [h1, h2, ih]
      simp

theorem countPos_ws_prepend (pat : Str) (hp : pat ≠ [])
    (hw : ∀ c0, pat.head? = some c0 → isWs c0 = false) :
    ∀ (w rest : Str), (∀ c ∈ w, isWs c = true) → countPos pat (w ++ rest) = countPos pat rest := by
  intro w
  induction w with
  | nil => intro rest _; rfl
  | cons c w' ih =>
    intro rest hws
    show countPos pat (c :: (w' ++ rest)) = _
    rw [countPos_cons, if_neg, Nat.zero_add, ih rest (fun d hd => hws d (by simp [hd]))]
    intro hpre
    have hh := head_eq_of_prefix hpre hp
    have hc := hw c (by rw [← hh]; rfl)
    have hcw := hws c (by simp)
    rw [hcw] at hc
    exact Bool.true_eq_false.mp hc

theorem minList_le : ∀ (l : List Nat) (x : Nat), x ∈ l → minList l ≤ x := by
  have haux : ∀ (ms : List Nat) (m : Nat),
      ms.foldl Nat.min m ≤ m ∧ ∀ x ∈ ms, ms.foldl Nat.min m ≤ x := by
    intro ms
    induction ms with
    | nil => intro m; exact ⟨Nat.le_refl m, by simp⟩
    | cons a ms ih =>
      intro m
      obtain ⟨h1, h2⟩ := ih (Nat.min m a)
      refine ⟨Nat.le_trans h1 (Nat.min_le_left _ _), ?_⟩
      intro x hx
      rcases List.mem_cons.mp hx with h | h
      · subst h; exact Nat.le_trans h1 (Nat.min_le_right _ _)
      · exact h2 x h
    
  intro l x hx
  cases l with
  | nil => simp at hx
  | cons m ms =>
    rcases List.mem_cons.mp hx with h | h
    · subst h; exact (haux ms x).1
    · exact (haux ms m).2 x h

theorem marginOf_le_leadingWs (lines : List Str) (l : Str) (hl : l ∈ lines)
    (hbl : isBlankLine l = false) : marginOf lines ≤ leadingWs l := by
  have hmem : leadingWs l ∈ (lines.filter (fun l => !(isBlankLine l))).map leadingWs :=
    List.mem_map_of_mem _ (List.mem_filter.mpr ⟨hl, by simp [hbl]⟩)
  exact minList_le _ _ hmem

theorem take_margin_ws (lines : List Str) (l : Str) (hl : l ∈ lines) :
    ∀ c ∈ l.take (marginOf lines), isWs c = true := by
  intro c hc
  by_cases hbl : isBlankLine l = true
  · exact List.all_eq_true.mp hbl c (List.take_subset _ _ hc)
  · have hbl' : isBlankLine l = false := by simpa using hbl
    have hm : marginOf lines ≤ leadingWs l := marginOf_le_leadingWs lines l hl hbl'
    have heq : l.take (marginOf lines) = (l.takeWhile isWs).take (marginOf lines) := by
      conv_lhs => rw [← List.takeWhile_append_dropWhile isWs l]
      rw [List.take_append_eq_append_take]
      have h0 : marginOf lines - (l.takeWhile isWs).length = 0 := by
        have : (l.takeWhile isWs).length = leadingWs l := rfl
        omega
      rw [h0]
      simp
    rw [heq] at hc
    exact List.mem_takeWhile_imp (List.take_subset _ _ hc)

/-- Margin normalization preserves the number of occurrences of any nonempty
pattern that contains no newline and does not start with whitespace. -/
theorem countPos_strip_margin (pat : Str) (hp : pat ≠ []) (hnl : '\n' ∉ pat)
    (hw : ∀ c0, pat.head? = some c0 → isWs c0 = false) (s : Str) :
    countPos pat (strip_margin s) = countPos pat s := by
  have hstrip : strip_margin s = joinNL ((splitNL s).map (List.drop (marginOf (splitNL s)))) :=
    rfl
  rw [hstrip, countPos_joinNL pat hp hnl, List.map_map]
  have hcongr : (splitNL s).map (countPos pat ∘ List.drop (marginOf (splitNL s))) =
      (splitNL s).map (countPos pat) := by
    apply List.map_congr_left
    intro l0 hl0
    show countPos pat (l0.drop (marginOf (splitNL s))) = countPos pat l0
    conv_rhs => rw [← List.take_append_drop (marginOf (splitNL s)) l0]
    rw [countPos_ws_prepend pat hp hw _ _ (take_margin_ws _ _ hl0)]
  rw [hcongr]
  conv_rhs => rw [← joinNL_splitNL s]
  rw [countPos_joinNL pat hp hnl]

/-! ### Splitting occurrence counts over the generated statement bodies -/

theorem countPos_append_decL (pat x y : Str)
    (h : ∀ k, k < pat.length → 0 < k → ¬ (pat.take k <:+ x)) :
    countPos pat (x ++ y) = countPos pat x + countPos pat y :=
  countPos_append pat x y (fun k hk1 hk2 hand => h k hk2 hk1 hand.1)

theorem countPos_append_headR (pat x y : Str)
    (hy : ∀ c0, y.head? = some c0 → c0 ∉ pat) :
    countPos pat (x ++ y) = countPos pat x + countPos pat y := by
  apply countPos_append
  intro k hk1 hk2 hand
  have hd := drop_ne_nil_of_lt hk2
  have hh := head_eq_of_prefix hand.2 hd
  obtain ⟨c0, hc0⟩ : ∃ c0, (pat.drop k).head? = some c0 := by
    cases hchd : pat.drop k with
    | nil => exact absurd hchd hd
    | cons a l => exact ⟨a, rfl⟩
  exact hy c0 (by rw [hh, hc0]) (List.drop_subset _ _ (head_mem_of_head_eq hc0))

theorem countPos_nl_cons (pat : Str) (hnl : '\n' ∉ pat) (hp : pat ≠ []) (rest : Str) :
    countPos pat ('\n' :: rest) = countPos pat rest := by
  rw [countPos_cons, if_neg, Nat.zero_add]
  intro hpre
  have hh := head_eq_of_prefix hpre hp
  exact hnl (head_mem_of_head_eq (show pat.head? = some '\n' by rw [← hh]; rfl))

theorem countPos_sepline (pat : Str) (hp : pat ≠ []) (hnl : '\n' ∉ pat)
    (hw : ∀ c0, pat.head? = some c0 → isWs c0 = false) (rest : Str) :
    countPos pat (str "\n            " ++ rest) = countPos pat rest := by
  rw [show str "\n            " ++ rest = '\n' :: (str "            " ++ rest) from rfl,
    countPos_nl_cons pat hnl hp,
    countPos_ws_prepend pat hp hw _ rest (by decide)]

theorem countPos_slot_line (pat : Str) (hp : pat ≠ []) (hnl : '\n' ∉ pat)
    (hw : ∀ c0, pat.head? = some c0 → isWs c0 = false) (x rest : Str) :
    countPos pat (x ++ (str "\n            " ++ rest)) = countPos pat x + countPos pat rest := by
  have hy : ∀ c0, (str "\n            " ++ rest).head? = some c0 → c0 ∉ pat := by
    intro c0 hc0
    rw [show (str "\n            " ++ rest).head? = some '\n' from rfl] at hc0
    rw [← Option.some.inj hc0]
    exact hnl
  rw [countPos_append_headR pat x _ hy, countPos_sepline pat hp hnl hw]

theorem countPos_slot_groupby (pat : Str) (hnl : '\n' ∉ pat) (x : Str) :
    countPos pat
        (x ++ str "\n        GROUP BY table_catalog, table_schema, table_name\n        ") =
      countPos pat x +
      countPos pat (str "\n        GROUP BY table_catalog, table_schema, table_name\n        ") := by
  apply countPos_append_headR
  intro c0 hc0
  rw [show (str "\n        GROUP BY table_catalog, table_schema, table_name\n        ").head? =
    some '\n' from rfl] at hc0
  rw [← Option.some.inj hc0]
  exact hnl

/-- Occurrence counting over the metadata-listing statement body decomposes
into the fixed leading text, the three predicate slots and the trailing
text. -/
theorem countPos_tableListBody (pat : Str) (hp : pat ≠ []) (hnl : '\n' ∉ pat)
    (hw : ∀ c0, pat.head? = some c0 → isWs c0 = false)
    (h1 : ∀ k, k < pat.length → 0 < k → ¬ (pat.take k <:+
      str "\n        SELECT \n            table_catalog, \n            table_schema, \n            table_name, \n            collect_list(struct(column_name, data_type, partition_index)) as table_columns\n        FROM system.information_schema.columns\n        WHERE \n            table_schema != \"information_schema\" \n            "))
    (c d t : Str) :
    countPos pat (tableListBody c d t) =
      countPos pat (str "\n        SELECT \n            table_catalog, \n            table_schema, \n            table_name, \n            collect_list(struct(column_name, data_type, partition_index)) as table_columns\n        FROM system.information_schema.columns\n        WHERE \n            table_schema != \"information_schema\" \n            ") +
      countPos pat (if c = str "*" then [] else catalogSqlPred c) +
      countPos pat (if d = str "*" then [] else databaseSqlPred d) +
      countPos pat (if t = str "*" then [] else tableSqlPred t) +
      countPos pat (str "\n        GROUP BY table_catalog, table_schema, table_name\n        ") := by
  simp only [tableListBody, List.append_assoc]
  rw [countPos_append_decL pat _ _ h1,
    countPos_slot_line pat hp hnl hw,
    countPos_slot_line pat hp hnl hw,
    countPos_slot_groupby pat hnl]
  omega

theorem mem_starToDotStar {ch : Char} {f : Str} (h : ch ∈ starToDotStar f) :
    ch = '.' ∨ ch = '*' ∨ ch ∈ f := by
  have he : starToDotStar f = f.flatMap (fun c => if c = '*' then str ".*" else [c]) :=
    replaceAll_single '*' (str ".*") f
  rw [he, List.mem_flatMap] at h
  obtain ⟨a, ha, hb⟩ := h
  by_cases h' : a = '*'
  · rw [if_pos h'] at hb
    rw [show str ".*" = ['.', '*'] from rfl] at hb
    rcases List.mem_cons.mp hb with h2 | h2
    · exact Or.inl h2
    · simp at h2
      exact Or.inr (Or.inl h2)
  · rw [if_neg h'] at hb
    simp at hb
    exact Or.inr (Or.inr (hb ▸ ha))

/-- Occurrence count of a pattern inside one generated anchored-regex
predicate `A ++ starToDotStar f ++ B`: the translated filter contributes
nothing when some pattern character cannot occur in it. -/
theorem countPos_predX (pat : Str) (c0 : Char) (hc0 : c0 ∈ pat) (f A B : Str)
    (hA : ∀ k, k < pat.length → 0 < k → ¬ (pat.take k <:+ A))
    (hBhead : ∀ ch, B.head? = some ch → ch ∉ pat)
    (hc0f : c0 ∉ f) (hc0dot : c0 ≠ '.') (hc0star : c0 ≠ '*') :
    countPos pat (A ++ starToDotStar f ++ B) = countPos pat A + countPos pat B := by
  rw [List.append_assoc, countPos_append_decL pat A _ hA,
    countPos_append_headR pat _ B hBhead]
  have hz : countPos pat (starToDotStar f) = 0 := by
    apply countPos_eq_zero_of_char_notin hc0
    intro hmem
    rcases mem_starToDotStar hmem with h | h | h
    · exact hc0dot h
    · exact hc0star h
    · exact hc0f h
  rw [hz]
  omega

/-- C7: for each of the three filters of `get_table_list_sql`: a filter equal
to the literal `*` omits the corresponding `regexp_like` predicate entirely
(zero occurrences in the output), any other filter yields exactly one
corresponding predicate of the anchored form `^<filter with each * replaced
by .*>$`, and in every case the output contains exactly one predicate
excluding the `information_schema` schema.  The hypotheses exclude quote and
parenthesis characters from the filters, which would otherwise inject into
the counted SQL text. -/
theorem get_table_list_sql_filter_predicates (c d t : Str)
    (hc : ∀ ch ∈ c, ch ≠ '"' ∧ ch ≠ '(')
    (hd : ∀ ch ∈ d, ch ≠ '"' ∧ ch ≠ '(')
    (ht : ∀ ch ∈ t, ch ≠ '"' ∧ ch ≠ '(') :
    (c = str "*" → countPos (str "regexp_like(table_catalog") (get_table_list_sql c d t) = 0) ∧
    (c ≠ str "*" →
      countPos (str "regexp_like(table_catalog") (get_table_list_sql c d t) = 1 ∧
      catalogSqlPred c = str "AND regexp_like(table_catalog, \"^" ++
        c.flatMap (fun ch => if ch = '*' then str ".*" else [ch]) ++ str "$\")") ∧
    (d = str "*" → countPos (str "regexp_like(table_schema,") (get_table_list_sql c d t) = 0) ∧
    (d ≠ str "*" →
      countPos (str "regexp_like(table_schema,") (get_table_list_sql c d t) = 1 ∧
      databaseSqlPred d = str "AND regexp_like(table_schema, \"^" ++
        d.flatMap (fun ch => if ch = '*' then str ".*" else [ch]) ++ str "$\")") ∧
    (t = str "*" → countPos (str "regexp_like(table_name") (get_table_list_sql c d t) = 0) ∧
    (t ≠ str "*" →
      countPos (str "regexp_like(table_name") (get_table_list_sql c d t) = 1 ∧
      tableSqlPred t = str "AND regexp_like(table_name, \"^" ++
        t.flatMap (fun ch => if ch = '*' then str ".*" else [ch]) ++ str "$\")") ∧
    countPos (str "table_schema != \"information_schema\"") (get_table_list_sql c d t) = 1 := by
  have hcount_c : countPos (str "regexp_like(table_catalog") (get_table_list_sql c d t) =
      (if c = str "*" then 0 else 1) := by
    rw [show get_table_list_sql c d t = strip_margin (tableListBody c d t) from rfl]
    rw [countPos_strip_margin _ (by decide) (by decide) (by decide)]
    rw [countPos_tableListBody _ (by decide) (by decide) (by decide) (by decide)]
    have hslot_cc : countPos (str "regexp_like(table_catalog")
        (if c = str "*" then [] else catalogSqlPred c) = (if c = str "*" then 0 else 1) := by
      by_cases h0 : c = str "*"
      · simp only [if_pos h0]
        rfl
      · simp only [if_neg h0]
        rw [show catalogSqlPred c = str "AND regexp_like(table_catalog, \"^" ++ starToDotStar c ++ str "$\")" from rfl]
        rw [countPos_predX _ '(' (by decide) c _ _ (by decide) ?bh_cc ?cf_cc (by decide) (by decide)]
        · decide
        case bh_cc =>
          intro ch hch
          rw [show (str "$\")").head? = some '$' from rfl] at hch
          rw [← Option.some.inj hch]
          decide
        case cf_cc =>
          intro hmem
          exact (hc '(' hmem).2 rfl
    have hslot_cd : countPos (str "regexp_like(table_catalog")
        (if d = str "*" then [] else databaseSqlPred d) = 0 := by
      by_cases h0 : d = str "*"
      · simp only [if_pos h0]
        rfl
      · simp only [if_neg h0]
        rw [show databaseSqlPred d = str "AND regexp_like(table_schema, \"^" ++ starToDotStar d ++ str "$\")" from rfl]
        rw [countPos_predX _ '(' (by decide) d _ _ (by decide) ?bh_cd ?cf_cd (by decide) (by decide)]
        · decide
        case bh_cd =>
          intro ch hch
          rw [show (str "$\")").head? = some '$' from rfl] at hch
          rw [← Option.some.inj hch]
          decide
        case cf_cd =>
          intro hmem
          exact (hd '(' hmem).2 rfl
    have hslot_ct : countPos (str "regexp_like(table_catalog")
        (if t = str "*" then [] else tableSqlPred t) = 0 := by
      by_cases h0 : t = str "*"
      · simp only [if_pos h0]
        rfl
      · simp only [if_neg h0]
        rw [show tableSqlPred t = str "AND regexp_like(table_name, \"^" ++ starToDotStar t ++ str "$\")" from rfl]
        rw [countPos_predX _ '(' (by decide) t _ _ (by decide) ?bh_ct ?cf_ct (by decide) (by decide)]
        · decide
        case bh_ct =>
          intro ch hch
          rw [show (str "$\")").head? = some '$' from rfl] at hch
          rw [← Option.some.inj hch]
          decide
        case cf_ct =>
          intro hmem
          exact (ht '(' hmem).2 rfl
    rw [hslot_cc, hslot_cd, hslot_ct,
      show countPos (str "regexp_like(table_catalog") (str "\n        SELECT \n            table_catalog, \n            table_schema, \n            table_name, \n            collect_list(struct(column_name, data_type, partition_index)) as table_columns\n        FROM system.information_schema.columns\n        WHERE \n            table_schema != \"information_schema\" \n            ") = 0 from by decide,
      show countPos (str "regexp_like(table_catalog") (str "\n        GROUP BY table_catalog, table_schema, table_name\n        ") = 0 from by decide]
    by_cases h0 : c = str "*" <;> simp [h0]
  have hcount_d : countPos (str "regexp_like(table_schema,") (get_table_list_sql c d t) =
      (if d = str "*" then 0 else 1) := by
    rw [show get_table_list_sql c d t = strip_margin (tableListBody c d t) from rfl]
    rw [countPos_strip_margin _ (by decide) (by decide) (by decide)]
    rw [countPos_tableListBody _ (by decide) (by decide) (by decide) (by decide)]
    have hslot_dc : countPos (str "regexp_like(table_schema,")
        (if c = str "*" then [] else catalogSqlPred c) = 0 := by
      by_cases h0 : c = str "*"
      · simp only [if_pos h0]
        rfl
      · simp only [if_neg h0]
        rw [show catalogSqlPred c = str "AND regexp_like(table_catalog, \"^" ++ starToDotStar c ++ str "$\")" from rfl]
        rw [countPos_predX _ '(' (by decide) c _ _ (by decide) ?bh_dc ?cf_dc (by decide) (by decide)]
        · decide
        case bh_dc =>
          intro ch hch
          rw [show (str "$\")").head? = some '$' from rfl] at hch
          rw [← Option.some.inj hch]
          decide
        case cf_dc =>
          intro hmem
          exact (hc '(' hmem).2 rfl
    have hslot_dd : countPos (str "regexp_like(table_schema,")
        (if d = str "*" then [] else databaseSqlPred d) = (if d = str "*" then 0 else 1) := by
      by_cases h0 : d = str "*"
      · simp only [if_pos h0]
        rfl
      · simp only [if_neg h0]
        rw [show databaseSqlPred d = str "AND regexp_like(table_schema, \"^" ++ starToDotStar d ++ str "$\")" from rfl]
        rw [countPos_predX _ '(' (by decide) d _ _ (by decide) ?bh_dd ?cf_dd (by decide) (by decide)]
        · decide
        case bh_dd =>
          intro ch hch
          rw [show (str "$\")").head? = some '$' from rfl] at hch
          rw [← Option.some.inj hch]
          decide
        case cf_dd =>
          intro hmem
          exact (hd '(' hmem).2 rfl
    have hslot_dt : countPos (str "regexp_like(table_schema,")
        (if t = str "*" then [] else tableSqlPred t) = 0 := by
      by_cases h0 : t = str "*"
      · simp only [if_pos h0]
        rfl
      · simp only [if_neg h0]
        rw [show tableSqlPred t = str "AND regexp_like(table_name, \"^" ++ starToDotStar t ++ str "$\")" from rfl]
        rw [countPos_predX _ '(' (by decide) t _ _ (by decide) ?bh_dt ?cf_dt (by decide) (by decide)]
        · decide
        case bh_dt =>
          intro ch hch
          rw [show (str "$\")").head? = some '$' from rfl] at hch
          rw [← Option.some.inj hch]
          decide
        case cf_dt =>
          intro hmem
          exact (ht '(' hmem).2 rfl
    rw [hslot_dc, hslot_dd, hslot_dt,
      show countPos (str "regexp_like(table_schema,") (str "\n        SELECT \n            table_catalog, \n            table_schema, \n            table_name, \n            collect_list(struct(column_name, data_type, partition_index)) as table_columns\n        FROM system.information_schema.columns\n        WHERE \n            table_schema != \"information_schema\" \n            ") = 0 from by decide,
      show countPos (str "regexp_like(table_schema,") (str "\n        GROUP BY table_catalog, table_schema, table_name\n        ") = 0 from by decide]
    by_cases h0 : d = str "*" <;> simp [h0]
  have hcount_t : countPos (str "regexp_like(table_name") (get_table_list_sql c d t) =
      (if t = str "*" then 0 else 1) := by
    rw [show get_table_list_sql c d t = strip_margin (tableListBody c d t) from rfl]
    rw [countPos_strip_margin _ (by decide) (by decide) (by decide)]
    rw [countPos_tableListBody _ (by decide) (by decide) (by decide) (by decide)]
    have hslot_tc : countPos (str "regexp_like(table_name")
        (if c = str "*" then [] else catalogSqlPred c) = 0 := by
      by_cases h0 : c = str "*"
      · simp only [if_pos h0]
        rfl
      · simp only [if_neg h0]
        rw [show catalogSqlPred c = str "AND regexp_like(table_catalog, \"^" ++ starToDotStar c ++ str "$\")" from rfl]
        rw [countPos_predX _ '(' (by decide) c _ _ (by decide) ?bh_tc ?cf_tc (by decide) (by decide)]
        · decide
        case bh_tc =>
          intro ch hch
          rw [show (str "$\")").head? = some '$' from rfl] at hch
          rw [← Option.some.inj hch]
          decide
        case cf_tc =>
          intro hmem
          exact (hc '(' hmem).2 rfl
    have hslot_td : countPos (str "regexp_like(table_name")
        (if d = str "*" then [] else databaseSqlPred d) = 0 := by
      by_cases h0 : d = str "*"
      · simp only [if_pos h0]
        rfl
      · simp only [if_neg h0]
        rw [show databaseSqlPred d = str "AND regexp_like(table_schema, \"^" ++ starToDotStar d ++ str "$\")" from rfl]
        rw [countPos_predX _ '(' (by decide) d _ _ (by decide) ?bh_td ?cf_td (by decide) (by decide)]
        · decide
        case bh_td =>
          intro ch hch
          rw [show (str "$\")").head? = some '$' from rfl] at hch
          rw [← Option.some.inj hch]
          decide
        case cf_td =>
          intro hmem
          exact (hd '(' hmem).2 rfl
    have hslot_tt : countPos (str "regexp_like(table_name")
        (if t = str "*" then [] else tableSqlPred t) = (if t = str "*" then 0 else 1) := by
      by_cases h0 : t = str "*"
      · simp only [if_pos h0]
        rfl
      · simp only [if_neg h0]
        rw [show tableSqlPred t = str "AND regexp_like(table_name, \"^" ++ starToDotStar t ++ str "$\")" from rfl]
        rw [countPos_predX _ '(' (by decide) t _ _ (by decide) ?bh_tt ?cf_tt (by decide) (by decide)]
        · decide
        case bh_tt =>
          intro ch hch
          rw [show (str "$\")").head? = some '$' from rfl] at hch
          rw [← Option.some.inj hch]
          decide
        case cf_tt =>
          intro hmem
          exact (ht '(' hmem).2 rfl
    rw [hslot_tc, hslot_td, hslot_tt,
      show countPos (str "regexp_like(table_name") (str "\n        SELECT \n            table_catalog, \n            table_schema, \n            table_name, \n            collect_list(struct(column_name, data_type, partition_index)) as table_columns\n        FROM system.information_schema.columns\n        WHERE \n            table_schema != \"information_schema\" \n            ") = 0 from by decide,
      show countPos (str "regexp_like(table_name") (str "\n        GROUP BY table_catalog, table_schema, table_name\n        ") = 0 from by decide]
    by_cases h0 : t = str "*" <;> simp [h0]
  have hcount_info : countPos (str "table_schema != \"information_schema\"") (get_table_list_sql c d t) = 1 := by
    rw [show get_table_list_sql c d t = strip_margin (tableListBody c d t) from rfl]
    rw [countPos_strip_margin _ (by decide) (by decide) (by decide)]
    rw [countPos_tableListBody _ (by decide) (by decide) (by decide) (by decide)]
    have hslot_ic : countPos (str "table_schema != \"information_schema\"")
        (if c = str "*" then [] else catalogSqlPred c) = 0 := by
      by_cases h0 : c = str "*"
      · simp only [if_pos h0]
        rfl
      · simp only [if_neg h0]
        rw [show catalogSqlPred c = str "AND regexp_like(table_catalog, \"^" ++ starToDotStar c ++ str "$\")" from rfl]
        rw [countPos_predX _ '"' (by decide) c _ _ (by decide) ?bh_ic ?cf_ic (by decide) (by decide)]
        · decide
        case bh_ic =>
          intro ch hch
          rw [show (str "$\")").head? = some '$' from rfl] at hch
          rw [← Option.some.inj hch]
          decide
        case cf_ic =>
          intro hmem
          exact (hc '"' hmem).1 rfl
    have hslot_id : countPos (str "table_schema != \"information_schema\"")
        (if d = str "*" then [] else databaseSqlPred d) = 0 := by
      by_cases h0 : d = str "*"
      · simp only [if_pos h0]
        rfl
      · simp only [if_neg h0]
        rw [show databaseSqlPred d = str "AND regexp_like(table_schema, \"^" ++ starToDotStar d ++ str "$\")" from rfl]
        rw [countPos_predX _ '"' (by decide) d _ _ (by decide) ?bh_id ?cf_id (by decide) (by decide)]
        · decide
        case bh_id =>
          intro ch hch
          rw [show (str "$\")").head? = some '$' from rfl] at hch
          rw [← Option.some.inj hch]
          decide
        case cf_id =>
          intro hmem
          exact (hd '"' hmem).1 rfl
    have hslot_it : countPos (str "table_schema != \"information_schema\"")
        (if t = str "*" then [] else tableSqlPred t) = 0 := by
      by_cases h0 : t = str "*"
      · simp only [if_pos h0]
        rfl
      · simp only [if_neg h0]
        rw [show tableSqlPred t = str "AND regexp_like(table_name, \"^" ++ starToDotStar t ++ str "$\")" from rfl]
        rw [countPos_predX _ '"' (by decide) t _ _ (by decide) ?bh_it ?cf_it (by decide) (by decide)]
        · decide
        case bh_it =>
          intro ch hch
          rw [show (str "$\")").head? = some '$' from rfl] at hch
          rw [← Option.some.inj hch]
          decide
        case cf_it =>
          intro hmem
          exact (ht '"' hmem).1 rfl
    rw [hslot_ic, hslot_id, hslot_it,
      show countPos (str "table_schema != \"information_schema\"") (str "\n        SELECT \n            table_catalog, \n            table_schema, \n            table_name, \n            collect_list(struct(column_name, data_type, partition_index)) as table_columns\n        FROM system.information_schema.columns\n        WHERE \n            table_schema != \"information_schema\" \n            ") = 1 from by decide,
      show countPos (str "table_schema != \"information_schema\"") (str "\n        GROUP BY table_catalog, table_schema, table_name\n        ") = 0 from by decide]
  refine ⟨?_, ?_, ?_, ?_, ?_, ?_, hcount_info⟩
  · intro h0
    rw [hcount_c, if_pos h0]
  · intro h0
    refine ⟨by rw [hcount_c, if_neg h0], ?_⟩
    rw [show catalogSqlPred c = str "AND regexp_like(table_catalog, \"^" ++ starToDotStar c ++ str "$\")" from rfl,
      show starToDotStar c = c.flatMap (fun ch => if ch = '*' then str ".*" else [ch]) from
        replaceAll_single '*' (str ".*") c]
  · intro h0
    rw [hcount_d, if_pos h0]
  · intro h0
    refine ⟨by rw [hcount_d, if_neg h0], ?_⟩
    rw [show databaseSqlPred d = str "AND regexp_like(table_schema, \"^" ++ starToDotStar d ++ str "$\")" from rfl,
      show starToDotStar d = d.flatMap (fun ch => if ch = '*' then str ".*" else [ch]) from
        replaceAll_single '*' (str ".*") d]
  · intro h0
    rw [hcount_t, if_pos h0]
  · intro h0
    refine ⟨by rw [hcount_t, if_neg h0], ?_⟩
    rw [show tableSqlPred t = str "AND regexp_like(table_name, \"^" ++ starToDotStar t ++ str "$\")" from rfl,
      show starToDotStar t = t.flatMap (fun ch => if ch = '*' then str ".*" else [ch]) from
        replaceAll_single '*' (str ".*") t]

theorem get_table_list_sql_filter_predicates_witness :
    countPos (str "regexp_like(table_catalog")
        (get_table_list_sql (str "*") (str "prod_*") (str "tbl")) = 0 ∧
    countPos (str "regexp_like(table_schema,")
        (get_table_list_sql (str "*") (str "prod_*") (str "tbl")) = 1 ∧
    databaseSqlPred (str "prod_*") = str "AND regexp_like(table_schema, \"^" ++
      (str "prod_*").flatMap (fun ch => if ch = '*' then str ".*" else [ch]) ++ str "$\")" ∧
    countPos (str "table_schema != \"information_schema\"")
        (get_table_list_sql (str "*") (str "prod_*") (str "tbl")) = 1 := by
  have h := get_table_list_sql_filter_predicates (str "*") (str "prod_*") (str "tbl")
    (by decide) (by decide) (by decide)
  exact ⟨h.1 rfl, (h.2.2.2.1 (by decide)).1, (h.2.2.2.1 (by decide)).2, h.2.2.2.2.2.2⟩

/-! ### Counting `stack(` occurrences in the scan statement (C5) -/

theorem natDigitsAux_ne_paren : ∀ (fuel n : Nat), ∀ ch ∈ natDigitsAux fuel n, ch ≠ '(' := by
  intro fuel
  induction fuel with
  | zero => intro n ch hch; simp [natDigitsAux] at hch
  | succ fuel ih =>
    intro n ch hch
    simp only [natDigitsAux] at hch
    by_cases h : n < 10
    · rw [if_pos h] at hch
      simp at hch
      subst hch
      interval_cases n <;> decide
    · rw [if_neg h] at hch
      rcases List.mem_append.mp hch with h1 | h1
      · exact ih (n / 10) ch h1
      · simp at h1
        subst h1
        have hm : n % 10 < 10 := Nat.mod_lt _ (by omega)
        set m := n % 10 with hmdef
        clear_value m
        interval_cases m <;> decide

theorem paren_notin_natDigits (n : Nat) : '(' ∉ natDigits n := by
  intro h
  exact natDigitsAux_ne_paren (n + 1) n '(' h rfl

theorem mem_joinWith {ch : Char} (sep : Str) : ∀ (ls : List Str), ch ∈ joinWith sep ls →
    ch ∈ sep ∨ ∃ l ∈ ls, ch ∈ l := by
  intro ls
  induction ls with
  | nil => intro h; simp [joinWith] at h
  | cons x xs ih =>
    cases xs with
    | nil =>
      intro h
      exact Or.inr ⟨x, by simp, h⟩
    | cons y ys =>
      intro h
      rw [joinWith_cons2] at h
      rcases List.mem_append.mp h with h1 | h1
      · rcases List.mem_append.mp h1 with h2 | h2
        · exact Or.inr ⟨x, by simp, h2⟩
        · exact Or.inl h2
      · rcases ih h1 with h2 | ⟨l, hl, hmem⟩
        · exact Or.inl h2
        · exact Or.inr ⟨l, by simp [hl], hmem⟩

theorem paren_notin_unpivotExpressions (exprs : List Rule)
    (hrn : ∀ r ∈ exprs, '(' ∉ r.name) : '(' ∉ unpivotExpressions exprs := by
  intro h
  rcases mem_joinWith _ _ h with h1 | ⟨l, hl, hmem⟩
  · simp [str] at h1
  · obtain ⟨r, hr, hlr⟩ := List.mem_map.mp hl
    subst hlr
    simp only [unpivotExpr, List.mem_append] at hmem
    rcases hmem with ((((h2 | h2) | h2) | h2) | h2)
    · simp [str] at h2
    · exact hrn r hr h2
    · simp [str] at h2
    · exact hrn r hr h2
    · simp [str] at h2

theorem paren_notin_unpivotColumns (cols : List ColumnInfo)
    (hcn : ∀ c ∈ cols, '(' ∉ c.name) : '(' ∉ unpivotColumns cols := by
  intro h
  rcases mem_joinWith _ _ h with h1 | ⟨l, hl, hmem⟩
  · simp [str] at h1
  · obtain ⟨c, hc, hlc⟩ := List.mem_map.mp hl
    subst hlc
    simp only [unpivotCol, List.mem_append] at hmem
    rcases hmem with ((((h2 | h2) | h2) | h2) | h2)
    · simp [str] at h2
    · exact hcn c hc h2
    · simp [str] at h2
    · exact hcn c hc h2
    · simp [str] at h2

theorem countPos_step_concrete (pat x : Str) (m : Nat)
    (h : ∀ k, k < pat.length → 0 < k → ¬ (pat.take k <:+ x))
    (hx : countPos pat x = m) :
    ∀ y, countPos pat (x ++ y) = m + countPos pat y := by
  intro y
  rw [countPos_append_decL pat x y h, hx]

theorem countPos_step_var (pat v : Str) (hv : countPos pat v = 0) (c1 : Char) (hc1 : c1 ∉ pat) :
    ∀ y, y.head? = some c1 → countPos pat (v ++ y) = countPos pat y := by
  intro y hy
  rw [countPos_append_headR pat v y
    (fun c0 h0 => by rw [hy] at h0; rw [← Option.some.inj h0]; exact hc1), hv, Nat.zero_add]

theorem regroup4 (a b c d z : Str) :
    a ++ (b ++ (c ++ (d ++ z))) = (a ++ (b ++ (c ++ d))) ++ z := by
  simp [List.append_assoc]

theorem paren_notin_catalogStr (ti : TableInfo) (hcat : '(' ∉ catalogLit ti) :
    '(' ∉ catalogStr ti := by
  intro h
  cases hc : ti.catalog with
  | none => simp [catalogStr, hc] at h
  | some c =>
    simp only [catalogStr, hc] at h
    by_cases hce : c = []
    · rw [if_pos hce] at h
      simp at h
    · rw [if_neg hce] at h
      rcases List.mem_append.mp h with h1 | h1
      · simp only [catalogLit, hc] at hcat
        exact hcat h1
      · simp [str] at h1

theorem countPos_matchingString (exprs : List Rule)
    (hrn : ∀ r ∈ exprs, '(' ∉ r.name)
    (hdefs : ∀ r ∈ exprs, countPos (str "stack(") (format_regex r.definition) = 0) :
    countPos (str "stack(") (matchingString exprs) = 0 := by
  rw [show matchingString exprs =
    joinWith (str ",\n                    ") (exprs.map matchingColumn) from rfl]
  rw [countPos_joinWith _ _ (by decide) (by decide) (by decide)]
  apply List.sum_eq_zero
  intro x hx
  rw [List.map_map] at hx
  obtain ⟨r, hr, hxr⟩ := List.mem_map.mp hx
  subst hxr
  show countPos (str "stack(") (matchingColumn r) = 0
  simp only [matchingColumn, List.append_assoc]
  rw [countPos_step_concrete _ (str "INT(regexp_like(value, \x27") 0 (by decide) (by decide)]
  rw [countPos_step_var _ (format_regex r.definition) (hdefs r hr) '\x27' (by decide)]
  · rw [countPos_step_concrete _ (str "\x27)) AS ") 0 (by decide) (by decide),
      countPos_eq_zero_of_char_notin (show ('(' : Char) ∈ str "stack(" from by decide)
        r.name (hrn r hr)]
  · rfl

/-- The scan-statement body contains exactly two occurrences of `stack(`:
one for the rule unpivot and one for the column unpivot. -/
theorem countPos_stack_ruleMatchingBody (ti : TableInfo) (exprs : List Rule)
    (cols : List ColumnInfo) (n : Nat)
    (hrn : ∀ r ∈ exprs, '(' ∉ r.name)
    (hcn : ∀ c ∈ cols, '(' ∉ c.name)
    (hdefs : ∀ r ∈ exprs, countPos (str "stack(") (format_regex r.definition) = 0)
    (hcat : '(' ∉ catalogLit ti) (hdb : '(' ∉ ti.database) (htb : '(' ∉ ti.table) :
    countPos (str "stack(") (ruleMatchingBody ti exprs cols n) = 2 := by
  have hP : ('(' : Char) ∈ str "stack(" := by decide
  have hR : '(' ∉ (catalogStr ti ++ (ti.database ++ (str "." ++ ti.table))) := by
    intro hmem
    rcases List.mem_append.mp hmem with h1 | h1
    · exact paren_notin_catalogStr ti hcat h1
    rcases List.mem_append.mp h1 with h2 | h2
    · exact hdb h2
    rcases List.mem_append.mp h2 with h3 | h3
    · simp [str] at h3
    · exact htb h3
  simp only [ruleMatchingBody, List.append_assoc]
  rw [regroup4 (catalogStr ti) ti.database (str ".") ti.table]
  rw [countPos_step_concrete _ (str "\n            SELECT \n                \x27") 0
      (by decide) (by decide)]
  rw [countPos_step_var _ (catalogLit ti)
      (countPos_eq_zero_of_char_notin hP _ hcat) '\x27' (by decide)]
  rw [countPos_step_concrete _ (str "\x27 as catalog,\n                \x27") 0
      (by decide) (by decide)]
  rw [countPos_step_var _ ti.database
      (countPos_eq_zero_of_char_notin hP _ hdb) '\x27' (by decide)]
  rw [countPos_step_concrete _ (str "\x27 as database,\n                \x27") 0
      (by decide) (by decide)]
  rw [countPos_step_var _ ti.table
      (countPos_eq_zero_of_char_notin hP _ htb) '\x27' (by decide)]
  rw [countPos_step_concrete _ (str "\x27 as table, \n                column,\n                rule_name,\n                (sum(value) / count(value)) as frequency\n            FROM\n            (\n                SELECT column, stack(") 1
      (by decide) (by decide)]
  rw [countPos_step_var _ (natDigits exprs.length)
      (countPos_eq_zero_of_char_notin hP _ (paren_notin_natDigits _)) ',' (by decide)]
  rw [countPos_step_concrete _ (str ", ") 0 (by decide) (by decide)]
  rw [countPos_step_var _ (unpivotExpressions exprs)
      (countPos_eq_zero_of_char_notin hP _ (paren_notin_unpivotExpressions exprs hrn)) ')'
      (by decide)]
  rw [countPos_step_concrete _ (str ") as (rule_name, value)\n                FROM \n                (\n                    SELECT\n                    column,\n                    ") 0
      (by decide) (by decide)]
  rw [countPos_step_var _ (matchingString exprs)
      (countPos_matchingString exprs hrn hdefs) '\n' (by decide)]
  rw [countPos_step_concrete _ (str "\n                    FROM (\n                        SELECT\n                            stack(") 1
      (by decide) (by decide)]
  rw [countPos_step_var _ (natDigits cols.length)
      (countPos_eq_zero_of_char_notin hP _ (paren_notin_natDigits _)) ',' (by decide)]
  rw [countPos_step_concrete _ (str ", ") 0 (by decide) (by decide)]
  rw [countPos_step_var _ (unpivotColumns cols)
      (countPos_eq_zero_of_char_notin hP _ (paren_notin_unpivotColumns cols hcn)) ')'
      (by decide)]
  rw [countPos_step_concrete _ (str ") AS (column, value)\n                        FROM ") 0
      (by decide) (by decide)]
  rw [countPos_step_var _ (catalogStr ti ++ (ti.database ++ (str "." ++ ti.table)))
      (countPos_eq_zero_of_char_notin hP _ hR) '\n' (by decide)]
  rw [countPos_step_concrete _ (str "\n                        TABLESAMPLE (") 0
      (by decide) (by decide)]
  rw [countPos_step_var _ (natDigits n)
      (countPos_eq_zero_of_char_notin hP _ (paren_notin_natDigits _)) ' ' (by decide)]
  rw [show countPos (str "stack(") (str " ROWS)\n                    )\n                )\n            )\n            GROUP BY catalog, database, table, column, rule_name\n        ") = 0 from by decide]
  all_goals rfl

theorem zipWith_map_same (f : α → β) (g : α → γ) (h : β → γ → δ) :
    ∀ l : List α, List.zipWith h (l.map f) (l.map g) = l.map (fun x => h (f x) (g x)) := by
  intro l
  induction l with
  | nil => rfl
  | cons a l ih => simp [ih]

/-- C5: the scan statement contains exactly one `stack(k, …)` unpivot over
rules and exactly one over columns (two `stack(` occurrences in total), the
rule unpivot's `k` is the number of REGEX rules and the column unpivot's `k`
the number of string-typed columns, each unpivot lists one quoted/backquoted
label-value pair per element of the corresponding filtered list in its
source order, and the rule order of the per-rule indicator aliases agrees
with the rule unpivot (both are generated from the same filtered rule list's
name sequence).  The hypotheses keep `(` out of the interpolated identifiers
and `stack(` out of the formatted rule patterns, which could otherwise
inject further occurrences. -/
theorem rule_matching_sql_stack_unpivots (ti : TableInfo) (rules : List Rule) (n : Nat)
    (hcols : colsOf ti ≠ []) (hexprs : expressionsOf rules ≠ [])
    (hrn : ∀ r ∈ expressionsOf rules, '(' ∉ r.name)
    (hcn : ∀ c ∈ colsOf ti, '(' ∉ c.name)
    (hdefs : ∀ r ∈ expressionsOf rules,
      countPos (str "stack(") (format_regex r.definition) = 0)
    (hcat : '(' ∉ catalogLit ti) (hdb : '(' ∉ ti.database) (htb : '(' ∉ ti.table) :
    (∀ s, rule_matching_sql ti rules n = .ok s → countPos (str "stack(") s = 2) ∧
    containsSub (ruleMatchingBody ti (expressionsOf rules) (colsOf ti) n)
      (str "stack(" ++ natDigits (expressionsOf rules).length ++ str ", " ++
        unpivotExpressions (expressionsOf rules) ++ str ") as (rule_name, value)") ∧
    containsSub (ruleMatchingBody ti (expressionsOf rules) (colsOf ti) n)
      (str "stack(" ++ natDigits (colsOf ti).length ++ str ", " ++
        unpivotColumns (colsOf ti) ++ str ") AS (column, value)") ∧
    unpivotExpressions (expressionsOf rules) = joinWith (str ", ")
      (((expressionsOf rules).map Rule.name).map
        (fun nm => str "\x27" ++ nm ++ str "\x27, `" ++ nm ++ str "`")) ∧
    unpivotColumns (colsOf ti) = joinWith (str ", ")
      (((colsOf ti).map ColumnInfo.name).map
        (fun nm => str "\x27" ++ nm ++ str "\x27, `" ++ nm ++ str "`")) ∧
    matchingString (expressionsOf rules) = joinWith (str ",\n                    ")
      (List.zipWith
        (fun fdef nm => str "INT(regexp_like(value, \x27" ++ fdef ++ str "\x27)) AS " ++ nm)
        ((expressionsOf rules).map (fun r => format_regex r.definition))
        ((expressionsOf rules).map Rule.name)) ∧
    ((expressionsOf rules).map Rule.name).length = (expressionsOf rules).length ∧
    ((colsOf ti).map ColumnInfo.name).length = (colsOf ti).length := by
  refine ⟨?_, ?_, ?_, ?_, ?_, ?_, by simp, by simp⟩
  · intro s hs
    simp only [rule_matching_sql, if_neg hcols, if_neg hexprs] at hs
    have hs' : strip_margin (ruleMatchingBody ti (expressionsOf rules) (colsOf ti) n) = s :=
      Except.ok.inj hs
    rw [← hs', countPos_strip_margin _ (by decide) (by decide) (by decide)]
    exact countPos_stack_ruleMatchingBody ti _ _ n hrn hcn hdefs hcat hdb htb
  · simp only [ruleMatchingBody]
    rw [show str "\x27 as table, \n                column,\n                rule_name,\n                (sum(value) / count(value)) as frequency\n            FROM\n            (\n                SELECT column, stack(" =
      str "\x27 as table, \n                column,\n                rule_name,\n                (sum(value) / count(value)) as frequency\n            FROM\n            (\n                SELECT column, " ++ str "stack(" from by decide]
    rw [show str ") as (rule_name, value)\n                FROM \n                (\n                    SELECT\n                    column,\n                    " =
      str ") as (rule_name, value)" ++ str "\n                FROM \n                (\n                    SELECT\n                    column,\n                    " from by decide]
    simp only [List.append_assoc]
    apply containsSub_there
    apply containsSub_there
    apply containsSub_there
    apply containsSub_there
    apply containsSub_there
    apply containsSub_there
    apply containsSub_there
    exact containsSub_head5 _ _ _ _ _ _
  · simp only [ruleMatchingBody]
    rw [show str "\n                    FROM (\n                        SELECT\n                            stack(" =
      str "\n                    FROM (\n                        SELECT\n                            " ++ str "stack(" from by decide]
    rw [show str ") AS (column, value)\n                        FROM " =
      str ") AS (column, value)" ++ str "\n                        FROM " from by decide]
    simp only [List.append_assoc]
    apply containsSub_there
    apply containsSub_there
    apply containsSub_there
    apply containsSub_there
    apply containsSub_there
    apply containsSub_there
    apply containsSub_there
    apply containsSub_there
    apply containsSub_there
    apply containsSub_there
    apply containsSub_there
    apply containsSub_there
    apply containsSub_there
    exact containsSub_head5 _ _ _ _ _ _
  · rw [List.map_map]
    rfl
  · rw [List.map_map]
    rfl
  · rw [zipWith_map_same]
    rfl

theorem rule_matching_sql_stack_unpivots_witness :
    countPos (str "stack(")
      (strip_margin (ruleMatchingBody wTableTags (expressionsOf [wRuleRegex])
        (colsOf wTableTags) 10)) = 2 ∧
    unpivotExpressions (expressionsOf [wRuleRegex]) = joinWith (str ", ")
      (((expressionsOf [wRuleRegex]).map Rule.name).map
        (fun nm => str "\x27" ++ nm ++ str "\x27, `" ++ nm ++ str "`")) := by
  have h := rule_matching_sql_stack_unpivots wTableTags [wRuleRegex] 10
    (by decide) (by decide) (by decide) (by decide) (by decide) (by decide) (by decide)
    (by decide)
  exact ⟨h.1 _ rfl, h.2.2.2.1⟩

/-! ### Simultaneous substitution (the specification's reading of step 4 of
`compile`): every occurrence of each referenced placeholder is replaced by
the combination's column, and no other text is altered. -/

/-- Every `[` of the template begins a well-formed placeholder: a nonempty
run of word characters closed by `]`. -/
def cleanOk : Str → Bool
  | [] => true
  | c :: rest =>
    if c = '[' then
      ((!(rest.takeWhile isWordChar).isEmpty) &&
        ((rest.dropWhile isWordChar).head? == some ']')) && cleanOk rest
    else cleanOk rest

/-- Worker for `substSimultaneous`; `skip` counts characters of an already
substituted placeholder still to be consumed. -/
def substGo (σ : List (Str × Str)) : Nat → Str → Str
  | k + 1, _ :: rest => substGo σ k rest
  | _, [] => []
  | 0, c :: rest =>
    if c = '[' then
      if (rest.takeWhile isWordChar) ≠ [] ∧
          (rest.dropWhile isWordChar).head? = some ']' then
        match List.lookup (rest.takeWhile isWordChar) σ with
        | some col => col ++ substGo σ ((rest.takeWhile isWordChar).length + 1) rest
        | none => c :: substGo σ 0 rest
      else c :: substGo σ 0 rest
    else c :: substGo σ 0 rest

/-- Simultaneous substitution of an assignment of columns to tags into a
template: in one left-to-right pass, each placeholder occurrence `[t]` with
`t` in the assignment's domain becomes the assigned column text, everything
else is copied unchanged. -/
def substSimultaneous (σ : List (Str × Str)) (s : Str) : Str := substGo σ 0 s

theorem substGo_skip_eq (σ : List (Str × Str)) : ∀ (s : Str) (k : Nat),
    substGo σ k s = substGo σ 0 (s.drop k) := by
  intro s
  induction s with
  | nil => intro k; cases k <;> simp [substGo]
  | cons c rest ih =>
    intro k
    cases k with
    | zero => simp
    | succ k => simpa [substGo] using ih k

theorem takeWhile_append_of_all (p : α → Bool) (a b : List α) (h : ∀ c ∈ a, p c = true) :
    (a ++ b).takeWhile p = a ++ b.takeWhile p := by
  induction a with
  | nil => simp
  | cons x a ih =>
    have hx : p x = true := h x (by simp)
    simp only [List.cons_append, List.takeWhile_cons, hx, if_true]
    rw [ih (fun c hc => h c (by simp [hc]))]

theorem dropWhile_append_of_all (p : α → Bool) (a b : List α) (h : ∀ c ∈ a, p c = true) :
    (a ++ b).dropWhile p = b.dropWhile p := by
  induction a with
  | nil => simp
  | cons x a ih =>
    have hx : p x = true := h x (by simp)
    simp only [List.cons_append, List.dropWhile_cons, hx, if_true]
    exact ih (fun c hc => h c (by simp [hc]))

theorem wordChar_ne_bracketL {c : Char} (h : isWordChar c = true) : c ≠ '[' := by
  intro he
  rw [he] at h
  exact absurd h (by decide)

theorem subst_cons_nb (σ : List (Str × Str)) (c : Char) (rest : Str) (hc : c ≠ '[') :
    substSimultaneous σ (c :: rest) = c :: substSimultaneous σ rest := by
  simp [substSimultaneous, substGo, hc]

theorem subst_sigma_nil : ∀ s : Str, substSimultaneous [] s = s := by
  intro s
  induction s with
  | nil => rfl
  | cons c rest ih =>
    by_cases hc : c = '['
    · subst hc
      show substGo [] 0 ('[' :: rest) = '[' :: rest
      simp only [substGo, if_pos rfl]
      by_cases hs : (rest.takeWhile isWordChar) ≠ [] ∧
          (rest.dropWhile isWordChar).head? = some ']'
      · rw [if_pos hs]
        show (match List.lookup (rest.takeWhile isWordChar) ([] : List (Str × Str)) with
          | some col => col ++ substGo [] ((rest.takeWhile isWordChar).length + 1) rest
          | none => '[' :: substGo [] 0 rest) = '[' :: rest
        rw [show List.lookup (rest.takeWhile isWordChar) ([] : List (Str × Str)) = none from rfl]
        show '[' :: substSimultaneous [] rest = '[' :: rest
        rw [ih]
      · rw [if_neg hs]
        show '[' :: substSimultaneous [] rest = '[' :: rest
        rw [ih]
    · rw [subst_cons_nb _ _ _ hc, ih]

theorem subst_copy (σ : List (Str × Str)) : ∀ (p X : Str), (∀ c ∈ p, c ≠ '[') →
    substSimultaneous σ (p ++ X) = p ++ substSimultaneous σ X := by
  intro p
  induction p with
  | nil => intro X _; simp
  | cons c p' ih =>
    intro X h
    rw [List.cons_append, subst_cons_nb _ _ _ (h c (by simp)),
      ih X (fun d hd => h d (by simp [hd]))]
    rfl

theorem replaceAll_copy (pp col : Str) : ∀ (p X : Str), (∀ c ∈ p, c ≠ '[') →
    replaceAll (p ++ X) ('[' :: pp) col = p ++ replaceAll X ('[' :: pp) col := by
  intro p
  induction p with
  | nil => intro X _; simp
  | cons c p' ih =>
    intro X h
    rw [List.cons_append, replaceAll_cons_neg]
    · rw [ih X (fun d hd => h d (by simp [hd]))]
      rfl
    · intro hpre
      have hh := head_eq_of_prefix hpre (by simp)
      simp at hh
      exact h c (by simp) hh

theorem cleanOk_cons_nb (c : Char) (rest : Str) (hc : c ≠ '[') :
    cleanOk (c :: rest) = cleanOk rest := by
  simp [cleanOk, hc]

theorem cleanOk_bracket_iff (rest : Str) : cleanOk ('[' :: rest) = true ↔
    ((rest.takeWhile isWordChar) ≠ [] ∧ (rest.dropWhile isWordChar).head? = some ']' ∧
      cleanOk rest = true) := by
  show (((!(rest.takeWhile isWordChar).isEmpty) &&
    ((rest.dropWhile isWordChar).head? == some ']')) && cleanOk rest) = true ↔ _
  simp [Bool.and_eq_true, List.isEmpty_iff, and_assoc]

theorem cleanOk_append_nb : ∀ (p s : Str), (∀ c ∈ p, c ≠ '[') →
    cleanOk (p ++ s) = cleanOk s := by
  intro p
  induction p with
  | nil => intro s _; simp
  | cons c p' ih =>
    intro s h
    rw [List.cons_append, cleanOk_cons_nb _ _ (h c (by simp)),
      ih s (fun d hd => h d (by simp [hd]))]

theorem cleanOk_tail_of (run tail : Str) (hrun : ∀ c ∈ run, isWordChar c = true)
    (h : cleanOk (run ++ ']' :: tail) = true) : cleanOk tail = true := by
  rw [cleanOk_append_nb run _ (fun c hc => wordChar_ne_bracketL (hrun c hc)),
    cleanOk_cons_nb _ _ (by decide)] at h
  exact h

theorem drop_append_len_succ (run tail : Str) :
    ((run ++ ']' :: tail).drop (run.length + 1)) = tail := by
  induction run with
  | nil => simp
  | cons a run ih => simp [ih]

theorem run_takeWhile (run Z : Str) (hrw : ∀ ch ∈ run, isWordChar ch = true) :
    ((run ++ ']' :: Z).takeWhile isWordChar) = run := by
  rw [takeWhile_append_of_all _ _ _ hrw]
  simp [List.takeWhile_cons, show isWordChar ']' = false from by decide]

theorem run_dropWhile (run Z : Str) (hrw : ∀ ch ∈ run, isWordChar ch = true) :
    ((run ++ ']' :: Z).dropWhile isWordChar) = ']' :: Z := by
  rw [dropWhile_append_of_all _ _ _ hrw]
  simp [List.dropWhile_cons, show isWordChar ']' = false from by decide]

theorem not_pat_pre (t run tail : Str) (htw : ∀ c ∈ t, isWordChar c = true)
    (hrw : ∀ c ∈ run, isWordChar c = true) (hne : run ≠ t) :
    ¬ (('[' :: (t ++ [']'])) <+: ('[' :: (run ++ ']' :: tail))) := by
  intro h
  rw [List.cons_prefix_cons] at h
  obtain ⟨-, h2⟩ := h
  obtain ⟨ext, hext⟩ := h2
  have h3 : t ++ (']' :: ext) = run ++ ']' :: tail := by
    rw [← hext]
    simp [List.append_assoc]
  have h4 : (t ++ ']' :: ext).takeWhile isWordChar = t := run_takeWhile t ext htw
  have h5 : (run ++ ']' :: tail).takeWhile isWordChar = run := run_takeWhile run tail hrw
  rw [h3, h5] at h4
  exact hne h4

theorem lookup_cons_self (t col : Str) (σ : List (Str × Str)) :
    List.lookup t ((t, col) :: σ) = some col := by
  simp [List.lookup]

theorem lookup_cons_of_ne (run t col : Str) (σ : List (Str × Str)) (h : run ≠ t) :
    List.lookup run ((t, col) :: σ) = List.lookup run σ := by
  simp only [List.lookup]
  rw [show (run == t) = false from beq_eq_false_iff_ne.mpr h]

theorem subst_bracket_match (σ : List (Str × Str)) (rest : Str)
    (hs : (rest.takeWhile isWordChar) ≠ [] ∧ (rest.dropWhile isWordChar).head? = some ']') :
    substSimultaneous σ ('[' :: rest) =
      (match List.lookup (rest.takeWhile isWordChar) σ with
       | some col => col ++ substGo σ ((rest.takeWhile isWordChar).length + 1) rest
       | none => '[' :: substSimultaneous σ rest) := by
  show substGo σ 0 ('[' :: rest) = _
  simp only [substGo, if_pos rfl, if_pos hs]
  rfl

theorem substGo_zero (σ : List (Str × Str)) (s : Str) :
    substGo σ 0 s = substSimultaneous σ s := rfl

/-- Substituting the head assignment by a sequential `replace` pass commutes
with simultaneous substitution of the remaining assignments, on clean
templates with bracket-free replacement text. -/
theorem subst_cons_replace (t col : Str) (σ' : List (Str × Str))
    (htw : ∀ ch ∈ t, isWordChar ch = true) (hcol : '[' ∉ col) :
    ∀ (n : Nat) (s : Str), s.length ≤ n → cleanOk s = true →
      substSimultaneous ((t, col) :: σ') s =
        substSimultaneous σ' (replaceAll s ('[' :: (t ++ [']'])) col) := by
  intro n
  induction n with
  | zero =>
    intro s hl _
    have hnil : s = [] := List.length_eq_zero.mp (Nat.le_zero.mp hl)
    subst hnil
    rw [replaceAll_nil]
    rfl
  | succ n ih =>
    intro s hl hclean
    cases s with
    | nil =>
      rw [replaceAll_nil]
      rfl
    | cons c rest =>
      by_cases hc : c = '['
      · subst hc
        obtain ⟨hrun, hhead, hcrest⟩ := (cleanOk_bracket_iff rest).mp hclean
        obtain ⟨tail, htail⟩ := wordRun_bracket_split rest hhead
        have hrw : ∀ ch ∈ rest.takeWhile isWordChar, isWordChar ch = true :=
          fun ch hch => List.mem_takeWhile_imp hch
        have hctail : cleanOk tail = true :=
          cleanOk_tail_of _ tail hrw (htail ▸ hcrest)
        have hltail : tail.length ≤ n := by
          have hlen := congrArg List.length htail
          simp only [List.length_append, List.length_cons] at hlen
          simp only [List.length_cons] at hl
          omega
        by_cases heq : rest.takeWhile isWordChar = t
        · have hpre : ('[' :: (t ++ [']'])) <+: ('[' :: rest) := by
            refine ⟨tail, ?_⟩
            conv_rhs => rw [htail, heq]
            simp [List.append_assoc]
          rw [replaceAll_cons_pos _ _ _ _ (by simp) hpre]
          have hdrop : (('[' :: rest).drop ('[' :: (t ++ [']'])).length) = tail := by
            have hlen : ('[' :: (t ++ [']'])).length = (t.length + 1) + 1 := by simp
            rw [hlen, List.drop_succ_cons, htail, heq, drop_append_len_succ]
          rw [hdrop]
          rw [subst_copy σ' col _ (fun d hd he => hcol (he ▸ hd))]
          rw [subst_bracket_match _ _ ⟨hrun, hhead⟩]
          rw [heq, lookup_cons_self, substGo_skip_eq]
          rw [show rest.drop (t.length + 1) = tail from by
            rw [htail, heq, drop_append_len_succ]]
          rw [substGo_zero, ih tail hltail hctail]
        · have hnpre : ¬ (('[' :: (t ++ [']'])) <+: ('[' :: rest)) := by
            rw [htail]
            exact not_pat_pre t _ tail htw hrw heq
          rw [replaceAll_cons_neg _ _ _ _ hnpre]
          have hra : replaceAll rest ('[' :: (t ++ [']'])) col =
              (rest.takeWhile isWordChar) ++ ']' ::
                replaceAll tail ('[' :: (t ++ [']'])) col := by
            conv_lhs => rw [htail]
            rw [replaceAll_copy _ _ _ _ (fun d hd => wordChar_ne_bracketL (hrw d hd))]
            rw [replaceAll_cons_neg]
            intro hpre2
            have hh := head_eq_of_prefix hpre2 (by simp)
            simp at hh
          rw [hra]
          have hs2 : (((rest.takeWhile isWordChar) ++ ']' ::
              replaceAll tail ('[' :: (t ++ [']'])) col).takeWhile isWordChar) =
              rest.takeWhile isWordChar := run_takeWhile _ _ hrw
          have hs3 : (((rest.takeWhile isWordChar) ++ ']' ::
              replaceAll tail ('[' :: (t ++ [']'])) col).dropWhile isWordChar).head? =
              some ']' := by
            rw [run_dropWhile _ _ hrw]
            rfl
          rw [subst_bracket_match _ _ ⟨hrun, hhead⟩,
            subst_bracket_match σ' _ ⟨by rw [hs2]; exact hrun, hs3⟩]
          rw [hs2, lookup_cons_of_ne _ _ _ _ heq]
          cases hlk : List.lookup (rest.takeWhile isWordChar) σ' with
          | some col2 =>
            simp only
            rw [substGo_skip_eq ((t, col) :: σ') rest,
              substGo_skip_eq σ' ((rest.takeWhile isWordChar) ++ ']' ::
                replaceAll tail ('[' :: (t ++ [']'])) col),
              drop_append_len_succ]
            rw [show rest.drop ((rest.takeWhile isWordChar).length + 1) = tail from by
              nth_rewrite 2 [htail]
              rw [drop_append_len_succ]]
            rw [substGo_zero, substGo_zero, ih tail hltail hctail]
          | none =>
            simp only
            have htailsub : substSimultaneous ((t, col) :: σ') rest =
                substSimultaneous σ' (replaceAll rest ('[' :: (t ++ [']'])) col) := by
              have hlrest : rest.length ≤ n := by
                simp only [List.length_cons] at hl
                omega
              exact ih rest hlrest hcrest
            rw [htailsub, hra]
      · rw [subst_cons_nb _ _ _ hc, replaceAll_cons_neg, subst_cons_nb _ _ _ hc]
        · have hlrest : rest.length ≤ n := by
            simp only [List.length_cons] at hl
            omega
          rw [ih rest hlrest ((cleanOk_cons_nb c rest hc) ▸ hclean)]
        · intro hpre
          have hh := head_eq_of_prefix hpre (by simp)
          simp at hh
          exact hc hh

/-- A sequential `replace` of a placeholder by bracket-free text preserves
cleanliness of the template. -/
theorem cleanOk_replaceAll (t col : Str)
    (htw : ∀ ch ∈ t, isWordChar ch = true) (hcol : '[' ∉ col) :
    ∀ (n : Nat) (s : Str), s.length ≤ n → cleanOk s = true →
      cleanOk (replaceAll s ('[' :: (t ++ [']'])) col) = true := by
  intro n
  induction n with
  | zero =>
    intro s hl _
    have hnil : s = [] := List.length_eq_zero.mp (Nat.le_zero.mp hl)
    subst hnil
    rw [replaceAll_nil]
    rfl
  | succ n ih =>
    intro s hl hclean
    cases s with
    | nil =>
      rw [replaceAll_nil]
      rfl
    | cons c rest =>
      have hlrest : rest.length ≤ n := by
        simp only [List.length_cons] at hl
        omega
      by_cases hc : c = '['
      · subst hc
        obtain ⟨hrun, hhead, hcrest⟩ := (cleanOk_bracket_iff rest).mp hclean
        obtain ⟨tail, htail⟩ := wordRun_bracket_split rest hhead
        have hrw : ∀ ch ∈ rest.takeWhile isWordChar, isWordChar ch = true :=
          fun ch hch => List.mem_takeWhile_imp hch
        have hctail : cleanOk tail = true :=
          cleanOk_tail_of _ tail hrw (htail ▸ hcrest)
        have hltail : tail.length ≤ n := by
          have hlen := congrArg List.length htail
          simp only [List.length_append, List.length_cons] at hlen
          simp only [List.length_cons] at hl
          omega
        by_cases heq : rest.takeWhile isWordChar = t
        · have hpre : ('[' :: (t ++ [']'])) <+: ('[' :: rest) := by
            refine ⟨tail, ?_⟩
            conv_rhs => rw [htail, heq]
            simp [List.append_assoc]
          rw [replaceAll_cons_pos _ _ _ _ (by simp) hpre]
          rw [show (('[' :: rest).drop ('[' :: (t ++ [']'])).length) = tail from by
            have hlen2 : ('[' :: (t ++ [']'])).length = (t.length + 1) + 1 := by simp
            rw [hlen2, List.drop_succ_cons, htail, heq, drop_append_len_succ]]
          rw [cleanOk_append_nb col _ (fun d hd he => hcol (he ▸ hd))]
          exact ih tail hltail hctail
        · have hnpre : ¬ (('[' :: (t ++ [']'])) <+: ('[' :: rest)) := by
            rw [htail]
            exact not_pat_pre t _ tail htw hrw heq
          rw [replaceAll_cons_neg _ _ _ _ hnpre]
          have hra : replaceAll rest ('[' :: (t ++ [']'])) col =
              (rest.takeWhile isWordChar) ++ ']' ::
                replaceAll tail ('[' :: (t ++ [']'])) col := by
            conv_lhs => rw [htail]
            rw [replaceAll_copy _ _ _ _ (fun d hd => wordChar_ne_bracketL (hrw d hd))]
            rw [replaceAll_cons_neg]
            intro hpre2
            have hh := head_eq_of_prefix hpre2 (by simp)
            simp at hh
          rw [hra]
          apply (cleanOk_bracket_iff _).mpr
          refine ⟨?_, ?_, ?_⟩
          · rw [run_takeWhile _ _ hrw]
            exact hrun
          · rw [run_dropWhile _ _ hrw]
            rfl
          · rw [cleanOk_append_nb _ _ (fun d hd => wordChar_ne_bracketL (hrw d hd)),
              cleanOk_cons_nb _ _ (by decide)]
            exact ih tail hltail hctail
      · rw [replaceAll_cons_neg _ _ _ _ (fun hpre => by
          have hh := head_eq_of_prefix hpre (by simp)
          simp at hh
          exact hc hh)]
        rw [cleanOk_cons_nb _ _ hc]
        rw [cleanOk_cons_nb _ _ hc] at hclean
        exact ih rest hlrest hclean

/-- On a clean template with word-run tags and bracket-free columns, the
sequential replacement pass of `compile_msql` computes the simultaneous
substitution. -/
theorem seq_eq_simul : ∀ (σ : List (Str × Str)) (s : Str), cleanOk s = true →
    (∀ p ∈ σ, (∀ ch ∈ p.1, isWordChar ch = true) ∧ '[' ∉ p.2) →
    σ.foldl (fun acc p => replaceAll acc ('[' :: (p.1 ++ [']'])) p.2) s
      = substSimultaneous σ s := by
  intro σ
  induction σ with
  | nil =>
    intro s _ _
    rw [List.foldl_nil, subst_sigma_nil]
  | cons p σ' ih =>
    intro s hclean hp
    obtain ⟨t, col⟩ := p
    have h1 := (hp (t, col) (by simp)).1
    have h2 := (hp (t, col) (by simp)).2
    rw [List.foldl_cons]
    rw [ih _ (cleanOk_replaceAll t col h1 h2 s.length s (Nat.le_refl _) hclean)
        (fun q hq => hp q (by simp [hq]))]
    exact (subst_cons_replace t col σ' h1 h2 s.length s (Nat.le_refl _) hclean).symm

theorem mem_of_mem_productList : ∀ (ls : List (List α)) (comb : List α),
    comb ∈ productList ls → ∀ a ∈ comb, ∃ l ∈ ls, a ∈ l := by
  intro ls
  induction ls with
  | nil =>
    intro comb h a ha
    simp [productList] at h
    subst h
    simp at ha
  | cons l ls ih =>
    intro comb h a ha
    simp only [productList, List.mem_flatMap, List.mem_map] at h
    obtain ⟨x, hx, rest, hrest, hcomb⟩ := h
    subst hcomb
    rcases List.mem_cons.mp ha with h1 | h1
    · exact ⟨l, by simp, h1 ▸ hx⟩
    · obtain ⟨l2, hl2, hal2⟩ := ih rest hrest a h1
      exact ⟨l2, by simp [hl2], hal2⟩

theorem mem_get_columns_by_tag {ti : TableInfo} {t : Str} {tc : TaggedColumn}
    (h : tc ∈ ti.get_columns_by_tag t) :
    tc.tag = t ∧ ∃ c ∈ ti.columns, tc.name = c.name := by
  simp only [TableInfo.get_columns_by_tag, List.mem_map, List.mem_filter] at h
  obtain ⟨c, ⟨hc, _⟩, htc⟩ := h
  subst htc
  exact ⟨rfl, c, hc, rfl⟩

/-- C2 (amended): on templates whose every `[` opens a well-formed
placeholder and tables whose column names contain no `[`, each statement of
`compile_msql` is exactly the simultaneous substitution of its combination's
tag-to-column assignment into the template (every occurrence of each
referenced placeholder replaced by that combination's column, all other text
unchanged), and the statements are joined with `UNION ALL`. -/
theorem compile_msql_simultaneous_subst (msql : Str) (ti : TableInfo) (ord : List Str)
    (hord : validOrder msql ord) (hclean : cleanOk msql = true)
    (hnames : ∀ c ∈ ti.columns, '[' ∉ c.name) :
    compileStatements msql ti ord =
      (productList (ord.map ti.get_columns_by_tag)).map
        (fun comb => substSimultaneous (comb.map (fun tc => (tc.tag, tc.name))) msql) ∧
    compile_msql msql ti ord = strip_margin (joinWith (str "\nUNION ALL\n")
      ((productList (ord.map ti.get_columns_by_tag)).map
        (fun comb => substSimultaneous (comb.map (fun tc => (tc.tag, tc.name))) msql))) := by
  have hmain : compileStatements msql ti ord =
      (productList (ord.map ti.get_columns_by_tag)).map
        (fun comb => substSimultaneous (comb.map (fun tc => (tc.tag, tc.name))) msql) := by
    unfold compileStatements
    apply List.map_congr_left
    intro comb hcomb
    have hσ : ∀ p ∈ comb.map (fun tc => (tc.tag, tc.name)),
        (∀ ch ∈ p.1, isWordChar ch = true) ∧ '[' ∉ p.2 := by
      intro p hpmem
      obtain ⟨tc, htc, hptc⟩ := List.mem_map.mp hpmem
      subst hptc
      obtain ⟨l, hl, htcl⟩ := mem_of_mem_productList _ comb hcomb tc htc
      obtain ⟨t, ht, hlt⟩ := List.mem_map.mp hl
      subst hlt
      obtain ⟨htag, c, hcmem, hname⟩ := mem_get_columns_by_tag htcl
      constructor
      · intro ch hch
        have htfind : t ∈ findTags msql := by
          have hdedup : t ∈ (findTags msql).dedup := hord.mem_iff.mp ht
          exact List.mem_dedup.mp hdedup
        have := (findTags_sound msql t htfind).2.1
        rw [htag] at hch
        exact this ch hch
      · rw [hname]
        exact hnames c hcmem
    have hfold := seq_eq_simul (comb.map fun tc => (tc.tag, tc.name)) msql hclean hσ
    rw [List.foldl_map] at hfold
    exact hfold
  refine ⟨hmain, ?_⟩
  show strip_margin (joinWith (str "\nUNION ALL\n") (compileStatements msql ti ord)) = _
  rw [hmain]

def c2TableA : TableInfo :=
  { catalog := none, database := str "d", table := str "t",
    columns := [
      { name := str "[b]", data_type := str "string", tags := [str "a"] },
      { name := str "x", data_type := str "string", tags := [str "b"] }] }

def c2TableB : TableInfo :=
  { catalog := none, database := str "d", table := str "t",
    columns := [
      { name := str "col", data_type := str "string", tags := [str "a"] },
      { name := str "W", data_type := str "string", tags := [str "xcoly"] }] }

/-- C2 fails as stated on the unrestricted code: with a column name that is
itself a placeholder (`[b]` carrying tag `a`), the sequential replacement
passes interfere and the emitted statement `x x` differs from the
simultaneous substitution `[b] x` the claim describes; with bracket-free
column names but a `[` that does not open a placeholder (template
`[x[a]y] [xcoly]`), an earlier substitution manufactures a later
placeholder and the emitted statement `W W` differs from the claimed
`[xcoly] W`. -/
theorem compile_msql_subst_counterexample :
    (validOrder (str "[a] [b]") [str "a", str "b"] ∧
      compileStatements (str "[a] [b]") c2TableA [str "a", str "b"] = [str "x x"] ∧
      (productList ([str "a", str "b"].map c2TableA.get_columns_by_tag)).map
        (fun comb => substSimultaneous (comb.map (fun tc => (tc.tag, tc.name)))
          (str "[a] [b]")) = [str "[b] x"] ∧
      ¬ (str "x x" = str "[b] x")) ∧
    (validOrder (str "[x[a]y] [xcoly]") [str "a", str "xcoly"] ∧
      compileStatements (str "[x[a]y] [xcoly]") c2TableB [str "a", str "xcoly"] =
        [str "W W"] ∧
      (productList ([str "a", str "xcoly"].map c2TableB.get_columns_by_tag)).map
        (fun comb => substSimultaneous (comb.map (fun tc => (tc.tag, tc.name)))
          (str "[x[a]y] [xcoly]")) = [str "[xcoly] W"] ∧
      ¬ (str "W W" = str "[xcoly] W")) := by
  decide

theorem compile_msql_simultaneous_subst_witness :
    compileStatements (str "SELECT [ip] FROM t WHERE [ip] = 1") wTableTags [str "ip"] =
      (productList ([str "ip"].map wTableTags.get_columns_by_tag)).map
        (fun comb => substSimultaneous (comb.map (fun tc => (tc.tag, tc.name)))
          (str "SELECT [ip] FROM t WHERE [ip] = 1")) :=
  (compile_msql_simultaneous_subst (str "SELECT [ip] FROM t WHERE [ip] = 1") wTableTags
    [str "ip"] (by decide) (by decide) (by decide)).1
